import Mathlib

/-!
# Verification of the Timeline Viewer entity index and dependency graph engine

This file gives a shallow embedding, in Lean, of the core data model and
algorithms of the Timeline Viewer plugin:

* frontmatter value handling (`Val`, `falsy`),
* relationship-reference extraction (`extractLinkId`, from
  `DataService.extractLinkId`),
* date normalization (`parseDate`, from `DataService.parseDate`),
* entity parsing and the rebuildable index (`parseFile`, `rebuildFrom`,
  from `DataService.parseFile` / `DataService.refreshCache`),
* WBS progress aggregation (`buildWBSNode`),
* entity creation (`createEntity`),
* cycle-safe dependency insertion (`wouldCreateCircularDependency`,
  `createDependency`, from `TimelineView`),
* the dependency graph engine (`buildGraph`, `calculateLayout`,
  `traceLongestPath`, `findCriticalPath`, from `DependencyGraphView`).

JavaScript `Map`s are modelled as insertion-ordered association lists or as
total functions with explicit pointwise update; JS numbers that the code uses
as integers are modelled as `Int`/`Nat`; host date-string parsing
(`new Date(string)`) is abstracted as a parameter `jsP : String → Option Int`
(`none` models an Invalid Date).  Recursions whose termination depends on the
data are given explicit fuel, returning `Option` results where `none` marks a
computation that the real (unfueled) recursion would not finish.
-/

namespace TLV

/-- A JavaScript runtime value as it can appear in parsed YAML frontmatter:
`null`/`undefined`, booleans, numbers (restricted to integers), strings,
`Date` objects (`vDate none` is an Invalid Date, i.e. one whose time is NaN),
and arrays. -/
inductive Val where
  | vNull : Val
  | vBool : Bool → Val
  | vNum : Int → Val
  | vStr : String → Val
  | vDate : Option Int → Val
  | vArr : List Val → Val
deriving Repr

/-- JavaScript falsiness (`!v`) for the values of `Val`.  `undefined`, `null`,
`false`, `0`, and the empty string are falsy; objects (dates, arrays) are
always truthy. -/
def falsy : Val → Bool
  | .vNull => true
  | .vBool b => !b
  | .vNum n => n == 0
  | .vStr s => s == ""
  | .vDate _ => false
  | .vArr _ => false

/-! ## Relationship-reference extraction (`DataService.extractLinkId`)

The source matches the unanchored regex `\[\[([^\]|]+)(?:\|[^\]]+)?\]\]`
against the string and returns the first capture group of the leftmost match,
falling back to the raw string when there is no match.  `tryMatchLink`
performs the match attempt at one position; `scanLink` scans positions left
to right. -/

/-- Attempt the pattern `\[\[([^\]|]+)(?:\|[^\]]+)?\]\]` at the head of the
character list, returning the capture group on success: two `[`, a nonempty
greedy run of characters other than `]`/`|` (the capture), optionally `|`
followed by a nonempty greedy run of characters other than `]`, then `]]`. -/
def tryMatchLink : List Char → Option (List Char)
  | c1 :: c2 :: rest =>
      if c1 = '[' ∧ c2 = '[' then
        let t := rest.takeWhile fun c => !(c == ']' || c == '|')
        if t.isEmpty then none
        else
          let r1 := rest.drop t.length
          if r1.take 2 = [']', ']'] then some t
          else if r1.headD ' ' = '|' then
            let r2 := r1.drop 1
            let a := r2.takeWhile fun c => !(c == ']')
            if a.isEmpty then none
            else if (r2.drop a.length).take 2 = [']', ']'] then some t
            else none
          else none
      else none
  | _ => none

/-- Leftmost match of the link pattern: try each start position from the left,
as `String.prototype.match` does for an unanchored regex. -/
def scanLink : List Char → Option (List Char)
  | [] => none
  | c :: cs =>
      match tryMatchLink (c :: cs) with
      | some t => some t
      | none => scanLink cs

/-- `DataService.extractLinkId`: falsy values yield no identifier; an array is
replaced by its first element (`undefined` when empty); non-strings yield no
identifier; a string is searched for the link pattern, the capture being the
identifier, and is otherwise used verbatim. -/
def extractLinkId (link : Val) : Option String :=
  if falsy link then none
  else
    let l := match link with
      | .vArr a => a.headD .vNull
      | v => v
    match l with
    | .vStr s =>
        match scanLink s.data with
        | some t => some (String.mk t)
        | none => some s
    | _ => none

/-- The reference grammar exactly as the specification words it: the whole
value is `[[Target]]` or `[[Target|Alias]]`. -/
def IsWholeLink (s t : String) : Prop :=
  s = "[[" ++ t ++ "]]" ∨ ∃ a : String, s = "[[" ++ t ++ "|" ++ a ++ "]]"

/-- Some well-formed link reference occurs as a substring: the shape the
unanchored regex actually looks for. -/
def HasLinkOcc (s : String) : Prop :=
  (∃ pre t suf : List Char,
      s.data = pre ++ ('[' :: '[' :: (t ++ (']' :: ']' :: suf))) ∧
      t ≠ [] ∧ ∀ c ∈ t, ¬(c = ']' ∨ c = '|')) ∨
  (∃ pre t a suf : List Char,
      s.data = pre ++ ('[' :: '[' :: (t ++ ('|' :: (a ++ (']' :: ']' :: suf))))) ∧
      t ≠ [] ∧ (∀ c ∈ t, ¬(c = ']' ∨ c = '|')) ∧ a ≠ [] ∧ ∀ c ∈ a, c ≠ ']')

/-! ## Date normalization (`DataService.parseDate`) -/

/-- Absolute bound on a JS `Date` time value: `new Date(n)` is an Invalid
Date exactly when `|n|` exceeds 8,640,000,000,000,000. -/
def maxJsTime : Nat := 8640000000000000

/-- `DataService.parseDate`, parameterized by the host's date-string parser
`jsP` (`new Date(string)`; `none` models NaN).  Falsy values are rejected
first; `Date` instances pass through (Invalid Dates becoming `none`); strings
go through the host parser; numbers become the corresponding epoch when in
range; anything else yields `none`. -/
def parseDate (jsP : String → Option Int) (value : Val) : Option Int :=
  if falsy value then none
  else
    match value with
    | .vDate t => t
    | .vStr s => jsP s
    | .vNum n => if n.natAbs ≤ maxJsTime then some n else none
    | _ => none

/-- Date normalization as the specification words it: a native date value, a
string through the host parser, or an integer epoch, with invalid input
yielding an absent date — and no falsiness carve-out. -/
def parseDateSpec (jsP : String → Option Int) (value : Val) : Option Int :=
  match value with
  | .vDate t => t
  | .vStr s => jsP s
  | .vNum n => if n.natAbs ≤ maxJsTime then some n else none
  | _ => none

/-- The amended description of date normalization: as `parseDateSpec`, except
that the zero epoch (a falsy number) yields an absent date. -/
def parseDateSpecAmended (jsP : String → Option Int) (value : Val) : Option Int :=
  match value with
  | .vNum n => if n = 0 then none else parseDateSpec jsP (.vNum n)
  | v => parseDateSpec jsP v

/-! ## Decimal numerals

`getUniqueFilePath` builds file names `base N.md` with `N` a decimal numeral
(`Nat.repr`); `natToChars` is the standard recursive description of that
numeral, used to reason about the probing loop. -/

/-- Decimal digits of `n`, most significant first, as characters. -/
def natToChars (n : Nat) : List Char :=
  if n < 10 then [Nat.digitChar n]
  else natToChars (n / 10) ++ [Nat.digitChar (n % 10)]
decreasing_by exact Nat.div_lt_self (by omega) (by omega)

/-! ## The entity index (`DataService`)

The document store is modelled structurally: a vault is a list of folder
paths plus a list of markdown files, each file carrying the folder it lives
in, its basename, and the frontmatter its metadata cache entry holds (the
attribute block, already parsed into `Val`s as Obsidian's YAML layer does).
`normalizePath` is the identity here (paths are already normal). -/

/-- The folder-layout settings the data service reads. -/
structure Settings where
  useNestedFolders : Bool
  rootFolder : String
  goalsFolder : String
  portfoliosFolder : String
  projectsFolder : String
  tasksFolder : String
deriving Repr, DecidableEq

/-- A document's attribute block (`EntityFrontmatter`), as the metadata cache
delivers it.  Every field is optional — absent keys are `undefined` at
runtime.  `title` is carried to show it is never consulted by the parser.
`dependencies` is a list of task-id strings, the shape the graph and timeline
code read at runtime. -/
structure Frontmatter where
  type : Option String := none
  id : Option String := none
  title : Option String := none
  status : Option String := none
  priority : Option String := none
  parent : Option Val := none
  startDate : Option Val := none
  endDate : Option Val := none
  dueDate : Option Val := none
  dependencies : Option (List String) := none
  progress : Option Int := none
  createdAt : Option String := none
  updatedAt : Option String := none
deriving Repr

/-- A markdown file in the vault (a `TFile` with extension `md`), together
with its cached metadata (`none` = no metadata/frontmatter yet). -/
structure VaultFile where
  folder : String
  basename : String
  frontmatter : Option Frontmatter := none
  ctime : Int := 0
  mtime : Int := 0
deriving Repr

/-- The file's vault path. -/
def VaultFile.path (f : VaultFile) : String :=
  f.folder ++ "/" ++ f.basename ++ ".md"

/-- A parsed entity.  The TS code builds per-variant object literals; here one
structure carries the union of the fields `parseFile` produces, with `type`
as discriminant (`goal`, `portfolio`, `project`, `task`).  `parentId` holds
`goalId` / `portfolioId` / `projectId` (the resolved `parent` reference);
`endDate` holds a goal's `targetDate` or a project's `endDate`.  Fields a
variant does not set keep their defaults; a `progress` property exists on the
built object only for projects and tasks (see `hasProgressField`). -/
structure Entity where
  id : String
  title : String
  type : String
  status : String
  createdAt : Option Int := none
  updatedAt : Option Int := none
  filePath : String := ""
  parentId : Option String := none
  startDate : Option Int := none
  endDate : Option Int := none
  dueDate : Option Int := none
  priority : String := ""
  dependencies : List String := []
  progress : Int := 0
deriving Repr, DecidableEq

/-- JS `'progress' in entity`: the object literals built by `parseFile`
include a `progress` key exactly for projects and tasks. -/
def hasProgressField (e : Entity) : Bool :=
  e.type == "project" || e.type == "task"

/-- JS `a || b` for an optional string (`undefined` and `""` are falsy). -/
def orElseStr : Option String → String → String
  | none, d => d
  | some s, d => if s = "" then d else s

/-- JS `a || b` for an optional integer (`0` is falsy; `0 || 0 = 0`). -/
def orElseInt : Option Int → Int → Int
  | none, d => d
  | some n, d => if n = 0 then d else n

/-- `frontmatter.x ? new Date(frontmatter.x) : new Date(fallback)` for the
`createdAt`/`updatedAt` strings (`fallback` is the file's ctime/mtime, always
a valid time). -/
def parseNewDate (jsP : String → Option Int) (s : Option String) (fallback : Int) :
    Option Int :=
  match s with
  | none => some fallback
  | some s => if s = "" then some fallback else jsP s

/-- `new Date(v)` applied to a raw frontmatter value (used for a goal's
`targetDate`): strings via the host parser, numbers as epochs, dates copied;
other values modelled as invalid. -/
def jsNewDate (jsP : String → Option Int) : Val → Option Int
  | .vStr s => jsP s
  | .vNum n => if n.natAbs ≤ maxJsTime then some n else none
  | .vDate t => t
  | _ => none

/-- `v ? new Date(v) : undefined`. -/
def condNewDate (jsP : String → Option Int) : Option Val → Option Int
  | some v => if falsy v then none else jsNewDate jsP v
  | none => none

/-- `parseDate` applied to an optional frontmatter value (absent = `undefined`,
which is falsy). -/
def parseDateOpt (jsP : String → Option Int) (o : Option Val) : Option Int :=
  parseDate jsP (o.getD .vNull)

/-- `DataService.parseFile`: no metadata/frontmatter → no entity; the type is
the explicit `type` attribute, else the caller-supplied expected type, else
the file is skipped; the id falls back to the file's basename; the title is
always the basename; then the variant-specific fields are filled in.  Types
outside the four variants produce no entity (the `default` switch arm). -/
def parseFile (jsP : String → Option Int) (file : VaultFile)
    (expectedType : Option String) : Option Entity :=
  match file.frontmatter with
  | none => none
  | some fm =>
      let type := orElseStr fm.type (expectedType.getD "")
      if type = "" then none
      else
        let baseId := orElseStr fm.id file.basename
        let status := orElseStr fm.status "not-started"
        let createdAt := parseNewDate jsP fm.createdAt file.ctime
        let updatedAt := parseNewDate jsP fm.updatedAt file.mtime
        if type = "goal" then
          some { id := baseId, title := file.basename, type := "goal",
                 status := status, createdAt := createdAt, updatedAt := updatedAt,
                 filePath := file.path,
                 endDate := condNewDate jsP fm.endDate }
        else if type = "portfolio" then
          some { id := baseId, title := file.basename, type := "portfolio",
                 status := status, createdAt := createdAt, updatedAt := updatedAt,
                 filePath := file.path,
                 parentId := extractLinkId (fm.parent.getD .vNull) }
        else if type = "project" then
          some { id := baseId, title := file.basename, type := "project",
                 status := status, createdAt := createdAt, updatedAt := updatedAt,
                 filePath := file.path,
                 parentId := extractLinkId (fm.parent.getD .vNull),
                 startDate := parseDateOpt jsP fm.startDate,
                 endDate := parseDateOpt jsP fm.endDate,
                 progress := orElseInt fm.progress 0 }
        else if type = "task" then
          some { id := baseId, title := file.basename, type := "task",
                 status := status, createdAt := createdAt, updatedAt := updatedAt,
                 filePath := file.path,
                 parentId := extractLinkId (fm.parent.getD .vNull),
                 startDate := parseDateOpt jsP fm.startDate,
                 dueDate := parseDateOpt jsP fm.dueDate,
                 priority := orElseStr fm.priority "medium",
                 dependencies := fm.dependencies.getD [],
                 progress := orElseInt fm.progress 0 }
        else none

/-- JS `Map.set`: replace the value in place when the key is present (keeping
its insertion position), else append. -/
def mapSet {α : Type} (m : List (String × α)) (k : String) (v : α) :
    List (String × α) :=
  if m.any fun p => p.1 == k then
    m.map fun p => if p.1 == k then (k, v) else p
  else m ++ [(k, v)]

/-- JS `Map.get`. -/
def mapGet {α : Type} (m : List (String × α)) (k : String) : Option α :=
  (m.find? fun p => p.1 == k).map Prod.snd

/-- One rebuild: parse each file (paired with the expected type its containing
folder implies, `none` in the nested layout) in scan order and store each
entity under its id.  This is `refreshCache`'s cache-building fold, abstracted
over the file enumeration the folder-scan mode produces. -/
def rebuildFrom (jsP : String → Option Int)
    (scan : List (VaultFile × Option String)) : List (String × Entity) :=
  scan.foldl
    (fun cache fe =>
      match parseFile jsP fe.1 fe.2 with
      | some e => mapSet cache e.id e
      | none => cache)
    []

/-- The document store: folder paths and markdown files. -/
structure Vault where
  folders : List String := []
  files : List VaultFile := []
deriving Repr

/-- `DataService.scanFolder`: the markdown files of one flat folder, in vault
order; skipped entirely when the folder does not exist. -/
def scanFolder (vault : Vault) (folderPath : String) : List VaultFile :=
  if vault.folders.contains folderPath then
    vault.files.filter fun f => f.folder == folderPath
  else []

/-- `DataService.refreshCache` in the flat-folder configuration: clear the
cache, then scan the goals, portfolios, projects and tasks folders in that
order, each with its expected type.  (The nested configuration differs only
in the enumeration handed to `rebuildFrom`.) -/
def refreshCacheFlat (jsP : String → Option Int) (settings : Settings)
    (vault : Vault) : List (String × Entity) :=
  rebuildFrom jsP
    (((scanFolder vault settings.goalsFolder).map fun f => (f, some "goal")) ++
     ((scanFolder vault settings.portfoliosFolder).map fun f => (f, some "portfolio")) ++
     ((scanFolder vault settings.projectsFolder).map fun f => (f, some "project")) ++
     ((scanFolder vault settings.tasksFolder).map fun f => (f, some "task")))

/-- `DataService.getEntity`: point lookup in the cache. -/
def getEntity (cache : List (String × Entity)) (id : String) : Option Entity :=
  mapGet cache id

/-- `DataService.getEntitiesByType`: the cached entities of one type, in
insertion order. -/
def getEntitiesByType (cache : List (String × Entity)) (t : String) : List Entity :=
  (cache.map Prod.snd).filter fun e => e.type == t

/-- `x ? cache.get(x) : undefined` for an optional id (`""` is falsy). -/
def lookupLink (cache : List (String × Entity)) : Option String → Option Entity
  | some s => if s = "" then none else getEntity cache s
  | none => none

/-! ## WBS projection (`getWBSTree` / `buildWBSNode`) -/

/-- A node of the WBS tree. -/
structure WBSNode where
  id : String
  title : String
  type : String
  status : String
  progress : Int
  children : List WBSNode
  expanded : Bool
deriving Repr

/-- JS `Math.round(s / n)` for integer `s` and positive `n`:
`⌊s/n + 1/2⌋` (halves round up). -/
def jsRoundDiv (s : Int) (n : Nat) : Int :=
  Int.fdiv (2 * s + n) (2 * n)

/-- Rank of an entity type in the Goal → Portfolio → Project → Task
hierarchy, used as the termination measure of `buildWBSNode`. -/
def typeRank : String → Nat
  | "goal" => 3
  | "portfolio" => 2
  | "project" => 1
  | _ => 0

/-- The recursion of `DataService.buildWBSNode`: children are the entities
one hierarchy level down whose parent reference equals this entity's id; the
displayed progress is the entity's own `progress` property (0 when the object
has none), replaced by `Math.round` of the children's mean computed progress
when there are children.  The recursion descends the fixed
Goal → Portfolio → Project → Task hierarchy; `fuel` makes the structurally
decreasing type rank explicit (`buildWBSNode` supplies `typeRank e.type`,
which matches the entity type at every recursive call, and rank-0 entities —
tasks and unknown types — have no children branch). -/
def buildWBSNodeAux (cache : List (String × Entity)) : Nat → Entity → WBSNode
  | 0, e =>
      { id := e.id, title := e.title, type := e.type, status := e.status,
        progress := if hasProgressField e then e.progress else 0,
        children := [], expanded := false }
  | fuel + 1, e =>
      let children : List WBSNode :=
        if e.type = "goal" then
          ((getEntitiesByType cache "portfolio").filter fun p =>
              p.parentId == some e.id).map
            fun q => buildWBSNodeAux cache fuel q
        else if e.type = "portfolio" then
          ((getEntitiesByType cache "project").filter fun p =>
              p.parentId == some e.id).map
            fun q => buildWBSNodeAux cache fuel q
        else if e.type = "project" then
          ((getEntitiesByType cache "task").filter fun p =>
              p.parentId == some e.id).map
            fun q => buildWBSNodeAux cache fuel q
        else []
      let own : Int := if hasProgressField e then e.progress else 0
      let progress : Int :=
        if children.length > 0 then
          jsRoundDiv (children.foldl (fun s c => s + c.progress) 0)
            children.length
        else own
      { id := e.id, title := e.title, type := e.type, status := e.status,
        progress := progress, children := children, expanded := false }

/-- `DataService.buildWBSNode`. -/
def buildWBSNode (cache : List (String × Entity)) (e : Entity) : WBSNode :=
  buildWBSNodeAux cache (typeRank e.type) e

/-- A concrete WBS sample: one project with three tasks at progress
20, 40 and 60. -/
def wbsSampleCache : List (String × Entity) :=
  [("P", { id := "P", title := "P", type := "project", status := "" }),
   ("t1", { id := "t1", title := "t1", type := "task", status := "",
            parentId := some "P", progress := 20 }),
   ("t2", { id := "t2", title := "t2", type := "task", status := "",
            parentId := some "P", progress := 40 }),
   ("t3", { id := "t3", title := "t3", type := "task", status := "",
            parentId := some "P", progress := 60 })]

/-- The project entity of `wbsSampleCache`. -/
def wbsSampleProject : Entity :=
  { id := "P", title := "P", type := "project", status := "" }

/-- `DataService.getWBSTree`: one WBS tree per goal. -/
def getWBSTree (cache : List (String × Entity)) : List WBSNode :=
  (getEntitiesByType cache "goal").map fun g => buildWBSNode cache g

/-! ## Entity creation (`DataService.createEntity`) -/

/-- Characters `sanitizeFileName` replaces with `-`:
`\ / : * ? " < > |`. -/
def isInvalidFileChar (c : Char) : Bool :=
  c == '\\' || c == '/' || c == ':' || c == '*' || c == '?' ||
  c == '"' || c == '<' || c == '>' || c == '|'

/-- `replace(/\s+/g, ' ')`: collapse every whitespace run to one space.  The
flag records whether the previous character was part of a whitespace run. -/
def collapseWsAux : Bool → List Char → List Char
  | _, [] => []
  | prevWs, c :: cs =>
      if c.isWhitespace then
        if prevWs then collapseWsAux true cs
        else ' ' :: collapseWsAux true cs
      else c :: collapseWsAux false cs

/-- `replace(/\s+/g, ' ')`. -/
def collapseWs (l : List Char) : List Char := collapseWsAux false l

/-- JS `trim()`: strip leading and trailing whitespace. -/
def trimChars (l : List Char) : List Char :=
  ((l.dropWhile Char.isWhitespace).reverse.dropWhile Char.isWhitespace).reverse

/-- `DataService.sanitizeFileName`: replace invalid characters with `-`,
normalize whitespace, trim, and cap at 200 characters. -/
def sanitizeFileName (fileName : String) : String :=
  String.mk
    ((trimChars (collapseWs
      (fileName.data.map fun c => if isInvalidFileChar c then '-' else c))).take 200)

/-- `fileName.replace(/\s*\d+$/, '')`: strip a trailing run of digits and the
whitespace just before it, when the name ends in a digit. -/
def stripTrailingNumber (s : String) : String :=
  match s.data.reverse with
  | c :: _ =>
      if c.isDigit then
        String.mk (((s.data.reverse.dropWhile Char.isDigit).dropWhile
          Char.isWhitespace).reverse)
      else s
  | [] => s

/-- `getAbstractFileByPath(p)` is non-null: `p` is a folder or a file path. -/
def pathExists (vault : Vault) (p : String) : Bool :=
  vault.folders.contains p || vault.files.any fun f => f.path == p

/-- The basename probed at a given counter: the sanitized name itself first,
then `base N` with the trailing number stripped from the original name. -/
def uniqueCandidate (fileName : String) (counter : Nat) : String :=
  if counter = 0 then fileName
  else stripTrailingNumber fileName ++ " " ++ Nat.repr counter

/-- The probing loop of `DataService.getUniqueFilePath`, with fuel (the real
loop ends because candidate names are pairwise distinct and the vault is
finite; see `getUniqueFilePath_fresh`). -/
def getUniqueFilePathAux (vault : Vault) (folderPath fileName : String) :
    Nat → Nat → String
  | 0, counter => uniqueCandidate fileName counter
  | fuel + 1, counter =>
      let cand := uniqueCandidate fileName counter
      if pathExists vault (folderPath ++ "/" ++ cand ++ ".md") then
        getUniqueFilePathAux vault folderPath fileName fuel (counter + 1)
      else cand

/-- `DataService.getUniqueFilePath`, returning the chosen basename (the full
path is `folderPath ++ "/" ++ result ++ ".md"`). -/
def getUniqueFilePath (vault : Vault) (folderPath fileName : String) : String :=
  getUniqueFilePathAux vault folderPath fileName
    (vault.files.length + vault.folders.length + 2) 0

/-- The `/`-separated prefixes of a path, shortest first — the levels
`ensureFolderExists` creates one by one. -/
def folderLevels (path : String) : List String :=
  ((path.splitOn "/").foldl
    (fun (acc : List String × String) part =>
      let cur := if acc.2 = "" then part else acc.2 ++ "/" ++ part
      (acc.1 ++ [cur], cur))
    ([], "")).1

/-- `DataService.ensureFolderExists`: no-op when the path already resolves;
otherwise create each missing level. -/
def ensureFolderExists (vault : Vault) (folderPath : String) : Vault :=
  if pathExists vault folderPath then vault
  else
    { vault with
      folders := vault.folders ++
        (folderLevels folderPath).filter fun p => !pathExists vault p }

/-- `DataService.getFolderForType`: flat mode picks the per-type settings
folder; nested mode walks the hierarchy titles under the root folder. -/
def getFolderForType (settings : Settings) (cache : List (String × Entity))
    (type : String) (parentId : Option String) : String :=
  if !settings.useNestedFolders then
    if type = "goal" then settings.goalsFolder
    else if type = "portfolio" then settings.portfoliosFolder
    else if type = "project" then settings.projectsFolder
    else settings.tasksFolder
  else
    let root := settings.rootFolder
    if type = "goal" then root ++ "/Goals"
    else if type = "portfolio" then
      match lookupLink cache parentId with
      | some parent => root ++ "/Goals/" ++ parent.title ++ "/Portfolios"
      | none => root ++ "/Portfolios"
    else if type = "project" then
      match lookupLink cache parentId with
      | some parent =>
          if parent.type = "portfolio" then
            match lookupLink cache parent.parentId with
            | some goal =>
                root ++ "/Goals/" ++ goal.title ++ "/Portfolios/" ++
                  parent.title ++ "/Projects"
            | none => root ++ "/Portfolios/" ++ parent.title ++ "/Projects"
          else root ++ "/Projects"
      | none => root ++ "/Projects"
    else if type = "task" then
      match lookupLink cache parentId with
      | some parent =>
          if parent.type = "project" then
            (match lookupLink cache parent.parentId with
             | some portfolio =>
                 match lookupLink cache portfolio.parentId with
                 | some goal =>
                     root ++ "/Goals/" ++ goal.title ++ "/Portfolios/" ++
                       portfolio.title ++ "/Projects/" ++ parent.title
                 | none =>
                     root ++ "/Portfolios/" ++ portfolio.title ++
                       "/Projects/" ++ parent.title
             | none => root ++ "/Projects/" ++ parent.title) ++ "/Tasks"
          else root ++ "/Tasks"
      | none => root ++ "/Tasks"
    else root ++ "/Tasks"

/-- The five sample tasks created for a new project:
title, priority, status. -/
def sampleTaskSpecs : List (String × String × String) :=
  [("Planning and Requirements", "high", "in-progress"),
   ("Design and Architecture", "high", "not-started"),
   ("Implementation", "medium", "not-started"),
   ("Testing and QA", "high", "not-started"),
   ("Documentation", "medium", "not-started")]

/-- `DataService.createSampleTasksForProject`: create one task file per sample
spec under the project's task folder.  The generated ids and computed
start/due ISO strings are parameters (`Date.now`-derived at runtime); its
final `refreshCache` only recomputes the cache, so only the vault is
returned. -/
def createSampleTasksForProject (settings : Settings) (vault : Vault)
    (projectId projectTitle projectFolderPath : String)
    (ids starts dues : List String) (nowIso : String) : Vault :=
  (sampleTaskSpecs.zip (ids.zip (starts.zip dues))).foldl
    (fun vault spec =>
      let status := spec.1.2.2
      let sanitizedTitle := sanitizeFileName projectTitle
      let taskFolderPath :=
        if settings.useNestedFolders then
          projectFolderPath ++ "/" ++ sanitizedTitle ++ "/Tasks"
        else settings.tasksFolder
      let vault := ensureFolderExists vault taskFolderPath
      let fm : Frontmatter :=
        { type := some "task", id := some spec.2.1, status := some status,
          priority := some spec.1.2.1,
          progress := some (if status = "in-progress" then 30 else 0),
          startDate := some (.vStr spec.2.2.1),
          dueDate := some (.vStr spec.2.2.2),
          createdAt := some nowIso, updatedAt := some nowIso,
          parent := some (.vStr ("[[" ++ projectId ++ "]]")) }
      let base := getUniqueFilePath vault taskFolderPath
        (sanitizeFileName spec.1.1)
      { vault with
        files := vault.files ++
          [{ folder := taskFolderPath, basename := base,
             frontmatter := some fm }] })
    vault

/-- The run-time inputs `createEntity` draws from the clock and the random
generator: the generated id, `new Date().toISOString()`, and the default
task/project date strings; `sampleIds`/`sampleStarts`/`sampleDues` feed the
sample tasks of a new project. -/
structure CreateParams where
  genId : String
  nowIso : String := ""
  taskStartIso : String := ""
  taskDueIso : String := ""
  projStartIso : String := ""
  projEndIso : String := ""
  sampleIds : List String := []
  sampleStarts : List String := []
  sampleDues : List String := []
deriving Repr, DecidableEq

/-- `DataService.createEntity`: ensure the target folder, write a new document
whose frontmatter carries the generated id and defaults (plus a
`[[parentId]]` reference when given, task dates, or project dates/progress
with the in-progress status), create the sample tasks for a new project, then
rebuild and return the cache entry at the generated id (`none` models the
`null` result).  The rebuild shown is the flat-folder one; claims about this
operation are settled in that configuration. -/
def createEntity (jsP : String → Option Int) (settings : Settings)
    (cache : List (String × Entity)) (vault : Vault)
    (type title : String) (parentId : Option String) (p : CreateParams) :
    Vault × Option Entity :=
  let folderPath := getFolderForType settings cache type parentId
  let vault := ensureFolderExists vault folderPath
  let fm : Frontmatter :=
    { type := some type, id := some p.genId,
      status := some (if type = "project" then "in-progress" else "not-started"),
      createdAt := some p.nowIso, updatedAt := some p.nowIso,
      parent := parentId.map fun pid => .vStr ("[[" ++ pid ++ "]]"),
      priority := if type = "task" then some "medium" else none,
      progress := if type = "task" ∨ type = "project" then some 0 else none,
      startDate :=
        if type = "task" then some (.vStr p.taskStartIso)
        else if type = "project" then some (.vStr p.projStartIso) else none,
      dueDate := if type = "task" then some (.vStr p.taskDueIso) else none,
      endDate := if type = "project" then some (.vStr p.projEndIso) else none }
  let base := getUniqueFilePath vault folderPath (sanitizeFileName title)
  let vault :=
    { vault with
      files := vault.files ++
        [{ folder := folderPath, basename := base, frontmatter := some fm }] }
  let vault :=
    if type = "project" then
      createSampleTasksForProject settings vault p.genId title folderPath
        p.sampleIds p.sampleStarts p.sampleDues p.nowIso
    else vault
  let cache2 := refreshCacheFlat jsP settings vault
  (vault, getEntity cache2 p.genId)

/-- The frontmatter `createEntity` writes for a task. -/
def taskFm (p : CreateParams) : Frontmatter :=
  { type := some "task", id := some p.genId, status := some "not-started",
    createdAt := some p.nowIso, updatedAt := some p.nowIso, parent := none,
    priority := some "medium", progress := some 0,
    startDate := some (.vStr p.taskStartIso),
    dueDate := some (.vStr p.taskDueIso), endDate := none }

/-- The file `createEntity` writes for a task in the flat layout. -/
def taskFile (settings : Settings) (vault : Vault) (title : String)
    (p : CreateParams) : VaultFile :=
  { folder := settings.tasksFolder,
    basename := getUniqueFilePath vault settings.tasksFolder
      (sanitizeFileName title),
    frontmatter := some (taskFm p) }

/-- The vault after `createEntity` writes that file. -/
def taskVault (settings : Settings) (vault : Vault) (title : String)
    (p : CreateParams) : Vault :=
  { vault with files := vault.files ++ [taskFile settings vault title p] }

/-- The entity the written task file parses back to. -/
def taskParsed (jsP : String → Option Int) (settings : Settings)
    (vault : Vault) (title : String) (p : CreateParams) : Entity :=
  { id := orElseStr (some p.genId) (taskFile settings vault title p).basename,
    title := (taskFile settings vault title p).basename,
    type := "task", status := "not-started",
    createdAt := parseNewDate jsP (some p.nowIso)
      (taskFile settings vault title p).ctime,
    updatedAt := parseNewDate jsP (some p.nowIso)
      (taskFile settings vault title p).mtime,
    filePath := (taskFile settings vault title p).path,
    parentId := none,
    startDate := parseDateOpt jsP (some (.vStr p.taskStartIso)),
    dueDate := parseDateOpt jsP (some (.vStr p.taskDueIso)),
    priority := "medium", dependencies := [], progress := 0 }

/-- A concrete flat-layout configuration for exercising `createEntity`. -/
def c7Settings : Settings :=
  { useNestedFolders := false, rootFolder := "TV",
    goalsFolder := "Goals", portfoliosFolder := "Portfolios",
    projectsFolder := "Projects", tasksFolder := "Tasks" }

/-- A vault holding the four standard folders and no files. -/
def c7Vault : Vault :=
  { folders := ["Goals", "Portfolios", "Projects", "Tasks"], files := [] }

/-- Concrete run-time inputs for the `createEntity` witness. -/
def c7Params : CreateParams := { genId := "task-1" }

/-! ## Cycle-safe dependency insertion (`TimelineView`) -/

/-- `dataService.getEntity(taskId)?.dependencies`: the dependency ids read
during traversal.  Entities without the property (non-tasks) and missing ids
contribute no iteration, i.e. behave like `[]`. -/
def depsOf (cache : List (String × Entity)) (taskId : String) : List String :=
  match getEntity cache taskId with
  | some e => e.dependencies
  | none => []

/-- The inner `checkDependencies` of
`TimelineView.wouldCreateCircularDependency`: answer `true` when `toId` is
reached; skip already-visited ids; otherwise mark visited and walk the
dependency list, returning `true` as soon as one branch finds `toId`.  The
closure-shared mutable `visited` set is threaded through the fold; fuel
bounds the recursion (`none` = exhausted; `checkDeps_total` shows the fuel
chosen by `wouldCreateCircularDependency` suffices). -/
def checkDependencies (cache : List (String × Entity)) (toId : String) :
    Nat → String → List String → Option (Bool × List String)
  | 0, _, _ => none
  | fuel + 1, taskId, visited =>
      if visited.contains taskId then some (false, visited)
      else if taskId = toId then some (true, visited)
      else
        (depsOf cache taskId).foldl
          (fun acc d =>
            match acc with
            | none => none
            | some (true, v) => some (true, v)
            | some (false, v) => checkDependencies cache toId fuel d v)
          (some (false, visited ++ [taskId]))

/-- The fold step of `checkDependencies`'s dependency walk, as a named
function (definitionally equal to the lambda in `checkDependencies`). -/
def checkStep (cache : List (String × Entity)) (toId : String) (fuel : Nat) :
    Option (Bool × List String) → String → Option (Bool × List String) :=
  fun acc d =>
    match acc with
    | none => none
    | some (true, v) => some (true, v)
    | some (false, v) => checkDependencies cache toId fuel d v

/-- A one-task index for exercising `createDependency`. -/
def c1Cache : List (String × Entity) :=
  [("T", { id := "T", title := "T", type := "task", status := "not-started",
           filePath := "Tasks/T.md", priority := "medium" })]

/-- Every id the traversal can visit: the starting id and every id occurring
in some cached entity's dependency list. -/
def depUniverse (cache : List (String × Entity)) (fromId : String) : List String :=
  fromId :: (cache.map Prod.snd).flatMap fun e => e.dependencies

/-- `TimelineView.wouldCreateCircularDependency`: depth-first search from
`fromId` for `toId` along dependency edges.  The fuel exceeds the number of
visitable ids, so the result is always `some` (`checkDeps_total`). -/
def wouldCreateCircularDependency (cache : List (String × Entity))
    (fromId toId : String) : Option Bool :=
  (checkDependencies cache toId ((depUniverse cache fromId).length + 1)
    fromId []).map Prod.fst

/-- `TimelineView.createDependency`, at the index level: the result is the
`updateEntity` request it issues — the target task id and its new dependency
list — or `none` when nothing happens (missing or non-task target, cycle
rejected, or dependency already present).  `none` means no document write, no
rebuild, and an unchanged index snapshot. -/
def createDependency (cache : List (String × Entity))
    (fromTaskId toTaskId : String) : Option (String × List String) :=
  match getEntity cache toTaskId with
  | some task =>
      if task.type = "task" then
        if (wouldCreateCircularDependency cache fromTaskId toTaskId).getD true then
          none
        else if task.dependencies.contains fromTaskId then none
        else some (toTaskId, task.dependencies ++ [fromTaskId])
      else none
  | none => none

/-- `toId` is reachable from `x` along existing dependency chains: zero or
more steps, each following an entry of the dependency list of the entity
indexed at the current id. -/
inductive Reaches (cache : List (String × Entity)) (toId : String) : String → Prop
  | here : Reaches cache toId toId
  | step (x d : String) : d ∈ depsOf cache x → Reaches cache toId d →
      Reaches cache toId x

/-! ## The dependency graph engine (`DependencyGraphView`)

`buildGraph` works off the timeline items and the entity cache; the data it
actually reads per task (id, title, status, progress, dependency ids) is
gathered here in a `TaskInfo`.  The node map is a JS `Map` keyed by task id,
modelled as an insertion-ordered association list. -/

/-- The per-task inputs of `buildGraph`. -/
structure TaskInfo where
  id : String
  title : String
  status : String := ""
  progress : Int := 0
  dependencies : List String := []
deriving Repr, DecidableEq

/-- A node of the dependency graph (layout coordinates and colors are
presentation-only and omitted). -/
structure GraphNode where
  id : String
  title : String
  dependencies : List String
  dependents : List String
  isCritical : Bool
  isBottleneck : Bool
  level : Nat
  status : String
  progress : Int
deriving Repr, DecidableEq

/-- A dependency edge; `src`/`tgt` are the source's `from`/`to` fields. -/
structure GraphEdge where
  src : String
  tgt : String
  isCritical : Bool
deriving Repr, DecidableEq

/-- The node object `buildGraph` creates for one task. -/
def initGraphNode (t : TaskInfo) : GraphNode :=
  { id := t.id, title := t.title, dependencies := t.dependencies,
    dependents := [], isCritical := false, isBottleneck := false,
    level := 0, status := t.status, progress := t.progress }

/-- First pass of `DependencyGraphView.buildGraph`: one node per task,
`Map.set` keyed by id. -/
def buildNodes (tasks : List TaskInfo) : List (String × GraphNode) :=
  tasks.foldl (fun m t => mapSet m t.id (initGraphNode t)) []

/-- Append `nodeId` to the `dependents` of the node stored at `depId`. -/
def pushDependent (m : List (String × GraphNode)) (depId nodeId : String) :
    List (String × GraphNode) :=
  m.map fun p =>
    if p.1 == depId then
      (p.1, { p.2 with dependents := p.2.dependents ++ [nodeId] })
    else p

/-- The inner `forEach` of `buildGraph`'s second pass: walk one node's
dependency ids in order, pushing the reverse link and recording an edge for
each dependency present in the node map. -/
def processDeps (nodeId : String) (ds : List String)
    (acc : List (String × GraphNode) × List GraphEdge) :
    List (String × GraphNode) × List GraphEdge :=
  ds.foldl
    (fun acc2 depId =>
      if (mapGet acc2.1 depId).isSome then
        (pushDependent acc2.1 depId nodeId,
         acc2.2 ++ [{ src := depId, tgt := nodeId, isCritical := false }])
      else acc2)
    acc

/-- Second pass of `buildGraph`: for each node in insertion order and each of
its dependency ids in order, push the reverse link and record an edge when
the dependency is itself in the node map.  (Only `dependents` fields mutate
during the pass, so the iterated id/dependency pairs are read up front.) -/
def addDependentsAndEdges (m : List (String × GraphNode)) :
    List (String × GraphNode) × List GraphEdge :=
  (m.map fun p => (p.1, p.2.dependencies)).foldl
    (fun acc pr => processDeps pr.1 pr.2 acc)
    (m, [])

/-- `DependencyGraphView.buildGraph`. -/
def buildGraph (tasks : List TaskInfo) :
    List (String × GraphNode) × List GraphEdge :=
  addDependentsAndEdges (buildNodes tasks)

/-- Pointwise update of a total map. -/
def fupd {α : Type} (f : String → α) (k : String) (v : α) : String → α :=
  fun x => if x = k then v else f x

/-- The in-degree map `calculateLayout` builds: for each node, the number of
its dependencies present in the node set; 0 for ids outside the map
(matching `inDegree.get(x) || 0`). -/
def initInDegree (nodes : List (String × GraphNode)) : String → Int :=
  nodes.foldl
    (fun f p =>
      fupd f p.1
        ((p.2.dependencies.filter fun d => (mapGet nodes d).isSome).length : Int))
    (fun _ => 0)

/-- Processing the dependents of a dequeued node: bump each in-set
dependent's level to `max(current, level(cur) + 1)`, decrement its in-degree,
and enqueue it when the in-degree reaches zero. -/
def stepDeps (nodes : List (String × GraphNode)) (cur : String) :
    List String → (String → Nat) → (String → Int) → List String →
    (String → Nat) × (String → Int) × List String
  | [], lvl, deg, q => (lvl, deg, q)
  | depId :: ds, lvl, deg, q =>
      if (mapGet nodes depId).isSome then
        let lvl2 := fupd lvl depId (max (lvl depId) (lvl cur + 1))
        let nd := deg depId - 1
        let deg2 := fupd deg depId nd
        let q2 := if nd = 0 then q ++ [depId] else q
        stepDeps nodes cur ds lvl2 deg2 q2
      else stepDeps nodes cur ds lvl deg q

/-- The BFS loop of `calculateLayout`, with one unit of fuel per dequeue (the
number of nodes suffices: every id is enqueued at most once).  The list of
processed ids — which the imperative loop keeps only implicitly as the set of
dequeued nodes — is returned alongside the level and in-degree maps. -/
def kahnLoop (nodes : List (String × GraphNode)) :
    Nat → List String → (String → Nat) → (String → Int) → List String →
    (String → Nat) × (String → Int) × List String
  | 0, _, lvl, deg, pops => (lvl, deg, pops)
  | _ + 1, [], lvl, deg, pops => (lvl, deg, pops)
  | fuel + 1, cur :: rest, lvl, deg, pops =>
      let deps := ((mapGet nodes cur).map fun n => n.dependents).getD []
      let s := stepDeps nodes cur deps lvl deg rest
      kahnLoop nodes fuel s.2.2 s.1 s.2.1 (pops ++ [cur])

/-- The topological-leveling phase of `DependencyGraphView.calculateLayout`:
levels start at 0 (as built), in-degree-0 nodes seed the queue (their level
is re-assigned 0), then the BFS runs.  Returns the final level assignment,
the residual in-degrees, and the processed ids.  (The subsequent x/y
positioning is presentation-only.) -/
def calculateLayout (nodes : List (String × GraphNode)) :
    (String → Nat) × (String → Int) × List String :=
  let deg := initInDegree nodes
  let queue := (nodes.map Prod.fst).filter fun id => deg id == 0
  kahnLoop nodes nodes.length queue (fun _ => 0) deg []

/-- `DependencyGraphView.traceLongestPath`, with fuel: the source recursion
has no visited check, so on cyclic data it need not terminate; `none` models
a call the real recursion never finishes.  The fold over the node's
dependencies recurses into each in-set dependency and keeps the strictly
longest sub-path, propagating `none`. -/
def traceLongestPath (nodes : List (String × GraphNode)) :
    Nat → String → List String → Option (List String)
  | 0, _, _ => none
  | fuel + 1, nodeId, currentPath =>
      match mapGet nodes nodeId with
      | none => some currentPath
      | some node =>
          let newPath := currentPath ++ [nodeId]
          if node.dependencies.isEmpty then some newPath
          else
            node.dependencies.foldl
              (fun acc depId =>
                match acc with
                | none => none
                | some best =>
                    if (mapGet nodes depId).isSome then
                      match traceLongestPath nodes fuel depId newPath with
                      | none => none
                      | some sub =>
                          some (if sub.length > best.length then sub else best)
                    else some best)
              (some newPath)

/-- Phase 1 of `DependencyGraphView.findCriticalPath`: collect the end nodes
(no dependents), trace the longest predecessor chain from each, and keep the
strictly longest.  Each trace gets fuel `|nodes| + 1`, enough whenever the
real recursion terminates at all (nested calls visit distinct nodes then);
`none` therefore models a diverging run. -/
def findCriticalPathList (nodes : List (String × GraphNode)) :
    Option (List String) :=
  (nodes.filter fun p => p.2.dependents.isEmpty).foldl
    (fun acc p =>
      match acc with
      | none => none
      | some best =>
          match traceLongestPath nodes (nodes.length + 1) p.1 [] with
          | none => none
          | some path => some (if path.length > best.length then path else best))
    (some [])

/-- Phase 2 of `findCriticalPath`: flag the nodes on the winning chain
(marking by membership equals the source's per-element set-and-flag loop). -/
def markCriticalNodes (nodes : List (String × GraphNode)) (cp : List String) :
    List (String × GraphNode) :=
  nodes.map fun p =>
    if cp.contains p.1 then (p.1, { p.2 with isCritical := true }) else p

/-- Phase 3 of `findCriticalPath`: an edge becomes critical exactly when both
its endpoints are in the critical set. -/
def markCriticalEdges (edges : List GraphEdge) (cp : List String) :
    List GraphEdge :=
  edges.map fun e =>
    if cp.contains e.src ∧ cp.contains e.tgt then { e with isCritical := true }
    else e

/-- `DependencyGraphView.findCriticalPath` as a whole: the winning chain plus
the node and edge markings; `none` when a trace diverges. -/
def findCriticalPath (nodes : List (String × GraphNode))
    (edges : List GraphEdge) :
    Option (List (String × GraphNode) × List GraphEdge × List String) :=
  (findCriticalPathList nodes).map fun cp =>
    (markCriticalNodes nodes cp, markCriticalEdges edges cp, cp)

/-- The fold step of `traceLongestPath`'s dependency loop, as a named
function (definitionally equal to the lambda in `traceLongestPath`). -/
def traceStep (nodes : List (String × GraphNode)) (fuel : Nat)
    (newPath : List String) :
    Option (List String) → String → Option (List String) :=
  fun acc depId =>
    match acc with
    | none => none
    | some best =>
        if (mapGet nodes depId).isSome then
          match traceLongestPath nodes fuel depId newPath with
          | none => none
          | some sub => some (if sub.length > best.length then sub else best)
        else some best

/-- The fold step of `findCriticalPathList`, as a named function
(definitionally equal to the lambda in `findCriticalPathList`). -/
def cpStep (nodes : List (String × GraphNode)) :
    Option (List String) → String × GraphNode → Option (List String) :=
  fun acc p =>
    match acc with
    | none => none
    | some best =>
        match traceLongestPath nodes (nodes.length + 1) p.1 [] with
        | none => none
        | some path => some (if path.length > best.length then path else best)

/-- The dependency ids of `id` that are themselves nodes of the graph. -/
def inSetDeps (nodes : List (String × GraphNode)) (id : String) : List String :=
  (((mapGet nodes id).map fun n => n.dependencies).getD []).filter
    fun d => (mapGet nodes d).isSome

/-- A dependency chain, listed sink-first: every element is a node and each
successor is an in-set dependency of its predecessor. -/
def IsDepChain (nodes : List (String × GraphNode)) : List String → Prop
  | [] => True
  | [x] => (mapGet nodes x).isSome = true
  | x :: y :: rest => y ∈ inSetDeps nodes x ∧ IsDepChain nodes (y :: rest)

/-- The dependency graph is acyclic: some rank strictly decreases along every
in-set dependency edge. -/
def Acyclic (nodes : List (String × GraphNode)) : Prop :=
  ∃ r : String → Nat, ∀ id, (mapGet nodes id).isSome →
    ∀ d ∈ inSetDeps nodes id, r d < r id

/-- `id` is a sink: a node with no dependents. -/
def IsSinkId (nodes : List (String × GraphNode)) (id : String) : Prop :=
  ∃ n, mapGet nodes id = some n ∧ n.dependents = []

/-- `foldl max 0`. -/
def listMax0 (l : List Nat) : Nat := l.foldl max 0

/-- Pre-existing cyclic data: two tasks depending on each other. -/
def cyclicTasks : List TaskInfo :=
  [{ id := "A", title := "A", dependencies := ["B"] },
   { id := "B", title := "B", dependencies := ["A"] }]

/-- A two-task cycle plus a sink task `C` depending into it. -/
def cyclicSinkTasks : List TaskInfo :=
  [{ id := "A", title := "A", dependencies := ["B"] },
   { id := "B", title := "B", dependencies := ["A"] },
   { id := "C", title := "C", dependencies := ["A"] }]

/-- A concrete stored document whose attribute block has a type and a stored
title but no id. -/
def c10File : VaultFile :=
  { folder := "Tasks", basename := "Doc",
    frontmatter := some { type := some "task", title := some "Stored title" } }

/-- A one-file scan (nested-layout style: no expected type). -/
def c10Scan : List (VaultFile × Option String) := [(c10File, none)]

/-- The entity `parseFile` produces for `c10File`. -/
def c10Entity : Entity :=
  { id := "Doc", title := "Doc", type := "task", status := "not-started",
    createdAt := some 0, updatedAt := some 0, filePath := "Tasks/Doc.md",
    parentId := none, startDate := none, dueDate := none,
    priority := "medium", dependencies := [], progress := 0 }

/-- The dependent entries node `x` accumulates during `addDependentsAndEdges`:
one copy of `pr.1` per occurrence of `x` in `pr.2`, in scan order. -/
def dependentContrib (ps : List (String × List String)) (x : String) : List String :=
  ps.flatMap fun pr => (pr.2.filter fun d => d == x).map fun _ => pr.1

/-- The spec's layout scenario: `T1` a source, `T2` and `T3` depending on
it, and `T4` depending on both. -/
def t4Tasks : List TaskInfo :=
  [{ id := "T1", title := "T1" },
   { id := "T2", title := "T2", dependencies := ["T1"] },
   { id := "T3", title := "T3", dependencies := ["T1"] },
   { id := "T4", title := "T4", dependencies := ["T2", "T3"] }]

/-- The invariant of `calculateLayout`'s BFS loop, relating the queue, the
level and in-degree maps, and the list `P` of already-dequeued ids. -/
structure KInv (nodes : List (String × GraphNode)) (q : List String)
    (lvl : String → Nat) (deg : String → Int) (P : List String) : Prop where
  qkeys : ∀ id ∈ q, (mapGet nodes id).isSome = true
  pkeys : ∀ id ∈ P, (mapGet nodes id).isSome = true
  qnodup : q.Nodup
  pnodup : P.Nodup
  disj : ∀ id ∈ q, id ∉ P
  degEq : ∀ id, (mapGet nodes id).isSome = true →
    deg id = ((inSetDeps nodes id).length : Int) -
      (((inSetDeps nodes id).filter fun d => decide (d ∈ P)).length : Int)
  member : ∀ id, (mapGet nodes id).isSome = true →
    ((id ∈ q ∨ id ∈ P) ↔ deg id = 0)
  lvlEq : ∀ id, (mapGet nodes id).isSome = true →
    lvl id = listMax0
      (((inSetDeps nodes id).filter fun d => decide (d ∈ P)).map
        fun d => lvl d + 1)

/-! ## Lemmas about `takeWhile` and the link scan -/

theorem takeWhile_sat_append (p : Char → Bool) (l : List Char) (x : Char)
    (r : List Char) (hl : ∀ c ∈ l, p c = true) (hx : p x = false) :
    (l ++ x :: r).takeWhile p = l := by
  induction l with
  | nil => simp [List.takeWhile_cons, hx]
  | cons a l ih =>
      have ha : p a = true := hl a (by simp)
      rw [List.cons_append, List.takeWhile_cons_of_pos ha,
        ih fun c hc => hl c (by simp [hc])]

theorem tryMatchLink_plain (l r : List Char) (hne : l ≠ [])
    (hl : ∀ c ∈ l, (!(c == ']' || c == '|')) = true) :
    tryMatchLink ('[' :: '[' :: (l ++ ']' :: ']' :: r)) = some l := by
  have htake : (l ++ ']' :: ']' :: r).takeWhile (fun c => !(c == ']' || c == '|')) = l :=
    takeWhile_sat_append _ _ _ _ hl (by decide)
  have hempty : l.isEmpty = false := by simp [List.isEmpty_iff, hne]
  simp only [tryMatchLink, htake, hempty, Bool.false_eq_true, if_false,
    List.drop_left]
  simp

theorem tryMatchLink_alias (l a r : List Char) (hne : l ≠ [])
    (hl : ∀ c ∈ l, (!(c == ']' || c == '|')) = true) (hanil : a ≠ [])
    (ha : ∀ c ∈ a, (!(c == ']')) = true) :
    tryMatchLink ('[' :: '[' :: (l ++ '|' :: (a ++ ']' :: ']' :: r))) = some l := by
  have htake : (l ++ '|' :: (a ++ ']' :: ']' :: r)).takeWhile
      (fun c => !(c == ']' || c == '|')) = l :=
    takeWhile_sat_append _ _ _ _ hl (by decide)
  have hempty : l.isEmpty = false := by simp [List.isEmpty_iff, hne]
  have htakea : (a ++ ']' :: ']' :: r).takeWhile (fun c => !(c == ']')) = a :=
    takeWhile_sat_append _ _ _ _ ha (by decide)
  have hemptya : a.isEmpty = false := by simp [List.isEmpty_iff, hanil]
  have htk2 : ('|' :: (a ++ ']' :: ']' :: r)).take 2 ≠ [']', ']'] := by simp
  simp only [tryMatchLink, htake, hempty, Bool.false_eq_true, if_false,
    List.drop_left, htk2, List.headD_cons, List.drop_succ_cons, List.drop_zero,
    htakea, hemptya]
  simp [List.drop_left]

theorem scanLink_cons_of_match (c : Char) (cs t : List Char)
    (h : tryMatchLink (c :: cs) = some t) : scanLink (c :: cs) = some t := by
  simp [scanLink, h]

theorem scanLink_none_drop {l : List Char} (h : scanLink l = none) :
    ∀ n, tryMatchLink (l.drop n) = none := by
  induction l with
  | nil => intro n; simp [List.drop_nil]; rfl
  | cons c cs ih =>
      have hsplit : tryMatchLink (c :: cs) = none ∧ scanLink cs = none := by
        cases htry : tryMatchLink (c :: cs) with
        | none =>
            refine ⟨rfl, ?_⟩
            rw [scanLink, htry] at h
            exact h
        | some t => rw [scanLink, htry] at h; cases h
      intro n
      match n with
      | 0 => exact hsplit.1
      | Nat.succ m => exact ih hsplit.2 m

theorem scanLink_first (pre cs t : List Char)
    (hpre : ∀ i, i < pre.length → tryMatchLink ((pre ++ cs).drop i) = none)
    (hmatch : tryMatchLink cs = some t) :
    scanLink (pre ++ cs) = some t := by
  induction pre with
  | nil =>
      cases cs with
      | nil => simp [tryMatchLink] at hmatch
      | cons c cs' => exact scanLink_cons_of_match _ _ _ hmatch
  | cons p pre' ih =>
      have h0 : tryMatchLink (p :: (pre' ++ cs)) = none := by
        have h := hpre 0 (by simp)
        simpa using h
      rw [List.cons_append]
      simp only [scanLink, h0]
      refine ih fun i hi => ?_
      have h := hpre (i + 1) (by simpa using Nat.succ_lt_succ hi)
      simpa using h

theorem scanLink_ne_none_of_occ {s : String} (h : HasLinkOcc s) :
    scanLink s.data ≠ none := by
  intro hnone
  rcases h with ⟨pre, t, suf, hdecomp, hne, hchars⟩ | ⟨pre, t, a, suf, hdecomp, hne, hchars, hanil, hachars⟩
  · have hdrop : s.data.drop pre.length = '[' :: '[' :: (t ++ ']' :: ']' :: suf) := by
      rw [hdecomp]; exact List.drop_left _ _
    have : tryMatchLink (s.data.drop pre.length) = some t := by
      rw [hdrop]
      exact tryMatchLink_plain t suf hne fun c hc => by
        have := hchars c hc
        simp only [not_or] at this
        simp [this.1, this.2]
    rw [scanLink_none_drop hnone pre.length] at this
    cases this
  · have hdrop : s.data.drop pre.length = '[' :: '[' :: (t ++ '|' :: (a ++ ']' :: ']' :: suf)) := by
      rw [hdecomp]; exact List.drop_left _ _
    have : tryMatchLink (s.data.drop pre.length) = some t := by
      rw [hdrop]
      exact tryMatchLink_alias t a suf hne
        (fun c hc => by
          have := hchars c hc
          simp only [not_or] at this
          simp [this.1, this.2])
        hanil (fun c hc => by simp [hachars c hc])
    rw [scanLink_none_drop hnone pre.length] at this
    cases this

theorem takeWhile_append_drop_self (p : Char → Bool) (l : List Char) :
    l.takeWhile p ++ l.drop (l.takeWhile p).length = l := by
  conv_rhs => rw [← List.take_append_drop (l.takeWhile p).length l]
  congr 1
  exact List.prefix_iff_eq_take.mp (List.takeWhile_prefix p)

theorem tryMatchLink_some_decomp {l t : List Char} (h : tryMatchLink l = some t) :
    t ≠ [] ∧ (∀ c ∈ t, ¬(c = ']' ∨ c = '|')) ∧
    ((∃ suf, l = '[' :: '[' :: (t ++ (']' :: ']' :: suf))) ∨
     (∃ a suf, a ≠ [] ∧ (∀ c ∈ a, c ≠ ']') ∧
        l = '[' :: '[' :: (t ++ ('|' :: (a ++ (']' :: ']' :: suf)))))) := by
  match l with
  | [] => simp [tryMatchLink] at h
  | [c] => simp [tryMatchLink] at h
  | c1 :: c2 :: rest =>
    simp only [tryMatchLink] at h
    by_cases hc : c1 = '[' ∧ c2 = '['
    case neg => rw [if_neg hc] at h; exact absurd h (by simp)
    rw [if_pos hc] at h
    obtain ⟨rfl, rfl⟩ := hc
    have hsplit := takeWhile_append_drop_self
      (fun c => !(c == ']' || c == '|')) rest
    have hchars : ∀ c ∈ rest.takeWhile fun c => !(c == ']' || c == '|'),
        ¬(c = ']' ∨ c = '|') := by
      intro c hc hor
      have hp := List.mem_takeWhile_imp hc
      rcases hor with h1 | h1 <;> subst h1 <;> simp at hp
    generalize htw : rest.takeWhile (fun c => !(c == ']' || c == '|')) = tw
      at h hsplit hchars
    by_cases hemp : tw.isEmpty
    · rw [if_pos hemp] at h; exact absurd h (by simp)
    rw [if_neg hemp] at h
    have hne : tw ≠ [] := by
      intro h0; rw [h0] at hemp; exact hemp rfl
    generalize hr1 : rest.drop tw.length = r1 at h hsplit
    by_cases h2 : r1.take 2 = [']', ']']
    · rw [if_pos h2] at h
      injection h with ht
      subst ht
      refine ⟨hne, hchars, Or.inl ⟨r1.drop 2, ?_⟩⟩
      have hthis : r1 = ']' :: ']' :: r1.drop 2 := by
        conv_lhs => rw [← List.take_append_drop 2 r1]
        rw [h2]
        rfl
      have hfull : rest = tw ++ (']' :: ']' :: r1.drop 2) :=
        hsplit.symm.trans (congrArg (fun z => tw ++ z) hthis)
      rw [hfull]
    · rw [if_neg h2] at h
      by_cases h3 : r1.headD ' ' = '|'
      · rw [if_pos h3] at h
        match r1, h3, h2, hsplit with
        | [], h3, _, _ => exact absurd h3 (by decide)
        | x :: xs, h3, h2, hsplit =>
          simp only [List.headD_cons] at h3
          subst h3
          simp only [List.drop_succ_cons, List.drop_zero] at h
          have hsplita := takeWhile_append_drop_self (fun c => !(c == ']')) xs
          have hachars : ∀ c ∈ xs.takeWhile fun c => !(c == ']'), c ≠ ']' := by
            intro c hc h1
            have hp := List.mem_takeWhile_imp hc
            subst h1; simp at hp
          by_cases hempa : (xs.takeWhile fun c => !(c == ']')).isEmpty
          · rw [if_pos hempa] at h; exact absurd h (by simp)
          rw [if_neg hempa] at h
          have hnea : (xs.takeWhile fun c => !(c == ']')) ≠ [] := by
            intro h0; rw [h0] at hempa; exact hempa rfl
          by_cases h4 :
            ((xs.drop (xs.takeWhile fun c => !(c == ']')).length).take 2) = [']', ']']
          · rw [if_pos h4] at h
            injection h with ht
            subst ht
            refine ⟨hne, hchars, Or.inr ⟨xs.takeWhile fun c => !(c == ']'),
              (xs.drop (xs.takeWhile fun c => !(c == ']')).length).drop 2,
              hnea, hachars, ?_⟩⟩
            have h5 : xs.drop (xs.takeWhile fun c => !(c == ']')).length =
                ']' :: ']' ::
                  (xs.drop (xs.takeWhile fun c => !(c == ']')).length).drop 2 := by
              conv_lhs => rw [← List.take_append_drop 2
                (xs.drop (xs.takeWhile fun c => !(c == ']')).length)]
              rw [h4]
              rfl
            have hx : xs = (xs.takeWhile fun c => !(c == ']')) ++
                (']' :: ']' ::
                  (xs.drop (xs.takeWhile fun c => !(c == ']')).length).drop 2) :=
              hsplita.symm.trans
                (congrArg (fun z => (xs.takeWhile fun c => !(c == ']')) ++ z) h5)
            have hfull : rest = tw ++ ('|' :: ((xs.takeWhile fun c => !(c == ']')) ++
                (']' :: ']' ::
                  (xs.drop (xs.takeWhile fun c => !(c == ']')).length).drop 2))) := by
              rw [← hx]
              exact hsplit.symm
            rw [hfull]
          · rw [if_neg h4] at h; exact absurd h (by simp)
      · rw [if_neg h3] at h; exact absurd h (by simp)

theorem scanLink_some_occ {l t : List Char} (h : scanLink l = some t) :
    ∃ n, tryMatchLink (l.drop n) = some t := by
  induction l with
  | nil => simp [scanLink] at h
  | cons c cs ih =>
      cases htry : tryMatchLink (c :: cs) with
      | some t2 =>
          simp only [scanLink, htry] at h
          injection h with ht
          subst ht
          exact ⟨0, htry⟩
      | none =>
          simp only [scanLink, htry] at h
          obtain ⟨n, hn⟩ := ih h
          exact ⟨n + 1, hn⟩

theorem hasLinkOcc_of_scan {s : String} {t : List Char}
    (h : scanLink s.data = some t) : HasLinkOcc s := by
  obtain ⟨n, hn⟩ := scanLink_some_occ h
  obtain ⟨hne, hchars, hshape⟩ := tryMatchLink_some_decomp hn
  rcases hshape with ⟨suf, hsuf⟩ | ⟨a, suf, hanil, hach, hsuf⟩
  · exact Or.inl ⟨s.data.take n, t, suf,
      by rw [← hsuf]; exact (List.take_append_drop n s.data).symm, hne, hchars⟩
  · exact Or.inr ⟨s.data.take n, t, a, suf,
      by rw [← hsuf]; exact (List.take_append_drop n s.data).symm,
      hne, hchars, hanil, hach⟩

theorem string_mk_data (s : String) : String.mk s.data = s := rfl

theorem string_ne_empty_of_data {s : String} {c : Char} {l : List Char}
    (h : s.data = c :: l) : s ≠ "" := by
  intro he
  rw [he] at h
  cases h

/-! ## Claims C8 and C9 -/

/-- **C8, counterexample.**  The claim says a reference that does not match
the whole-value grammar `[[Target]]` / `[[Target|Alias]]` is used verbatim as
the identifier.  The string `"x[[y]]"` matches no whole-value link, yet
`extractLinkId` resolves it to `"y"` (the regex is unanchored and finds the
embedded occurrence), not to the verbatim string. -/
theorem C8_extractLinkId_cex :
    extractLinkId (.vStr "x[[y]]") = some "y" ∧
    (¬ ∃ t, IsWholeLink "x[[y]]" t) ∧ some "y" ≠ some "x[[y]]" := by
  refine ⟨rfl, ?_, by decide⟩
  rintro ⟨t, h | ⟨a, h⟩⟩
  · have hd := congrArg String.data h
    have h1 : "x[[y]]".data = ['x', '[', '[', 'y', ']', ']'] := rfl
    have h2 : "[[".data = ['[', '['] := rfl
    have h3 : "]]".data = [']', ']'] := rfl
    rw [String.data_append, String.data_append, h1, h2, h3] at hd
    simp at hd
  · have hd := congrArg String.data h
    have h1 : "x[[y]]".data = ['x', '[', '[', 'y', ']', ']'] := rfl
    have h2 : "[[".data = ['[', '['] := rfl
    have h3 : "]]".data = [']', ']'] := rfl
    have h4 : "|".data = ['|'] := rfl
    rw [String.data_append, String.data_append, String.data_append,
      String.data_append, h1, h2, h3, h4] at hd
    simp at hd

theorem data_ne_nil {t : String} (h : t ≠ "") : t.data ≠ [] := by
  intro hd
  apply h
  cases t with
  | mk d => subst hd; rfl

theorem boolify_chars {t : List Char} (h : ∀ c ∈ t, ¬(c = ']' ∨ c = '|')) :
    ∀ c ∈ t, (!(c == ']' || c == '|')) = true := by
  intro c hc
  have := h c hc
  simp only [not_or] at this
  simp [this.1, this.2]

/-- **C8, amended claim.**  Reference extraction searches for the *leftmost
occurrence* of `[[Target]]` / `[[Target|Alias]]` anywhere in the string (the
regex is unanchored): when one occurs its Target is the identifier, even if
the whole value is not a link; only strings containing no such occurrence are
used verbatim.  Falsy values (absent, empty string, non-strings) yield no
identifier — except that an empty string arriving as a list's first element
is used verbatim.  A list's first element is the primary reference.  The two
final conjuncts state the universal leftmost-occurrence behavior: whenever a
well-formed link occurrence (plain or aliased) sits anywhere in the string and
the pattern matches at no earlier position, the occurrence's Target is the
identifier — even though the value as a whole is not a link. -/
theorem C8_extractLinkId_amended :
    (∀ t : String, t ≠ "" → (∀ c ∈ t.data, ¬(c = ']' ∨ c = '|')) →
      extractLinkId (.vStr ("[[" ++ t ++ "]]")) = some t) ∧
    (∀ t a : String, t ≠ "" → (∀ c ∈ t.data, ¬(c = ']' ∨ c = '|')) →
      a ≠ "" → (∀ c ∈ a.data, c ≠ ']') →
      extractLinkId (.vStr ("[[" ++ t ++ "|" ++ a ++ "]]")) = some t) ∧
    (∀ s : String, s ≠ "" → ¬ HasLinkOcc s → extractLinkId (.vStr s) = some s) ∧
    (∀ v : Val, falsy v = true → extractLinkId v = none) ∧
    (∀ s : String, ∀ l : List Val, s ≠ "" →
      extractLinkId (.vArr (.vStr s :: l)) = extractLinkId (.vStr s)) ∧
    (∀ l : List Val, extractLinkId (.vArr (.vStr "" :: l)) = some "") ∧
    (∀ (s : String) (pre t suf : List Char),
      s.data = pre ++ ('[' :: '[' :: (t ++ (']' :: ']' :: suf))) →
      t ≠ [] → (∀ c ∈ t, ¬(c = ']' ∨ c = '|')) →
      (∀ i, i < pre.length → tryMatchLink (s.data.drop i) = none) →
      extractLinkId (.vStr s) = some (String.mk t)) ∧
    (∀ (s : String) (pre t a suf : List Char),
      s.data = pre ++ ('[' :: '[' :: (t ++ ('|' :: (a ++ (']' :: ']' :: suf))))) →
      t ≠ [] → (∀ c ∈ t, ¬(c = ']' ∨ c = '|')) →
      a ≠ [] → (∀ c ∈ a, c ≠ ']') →
      (∀ i, i < pre.length → tryMatchLink (s.data.drop i) = none) →
      extractLinkId (.vStr s) = some (String.mk t)) := by
  refine ⟨?_, ?_, ?_, ?_, ?_, ?_, ?_, ?_⟩
  · intro t ht hch
    have hdata : ("[[" ++ t ++ "]]").data =
        '[' :: '[' :: (t.data ++ (']' :: ']' :: [])) := by
      rw [String.data_append, String.data_append]
      show (['[', '['] ++ t.data) ++ [']', ']'] = _
      simp
    have hne := string_ne_empty_of_data hdata
    have hbeq : (("[[" ++ t ++ "]]") == "") = false := beq_eq_false_iff_ne.mpr hne
    have hscan : scanLink ("[[" ++ t ++ "]]").data = some t.data := by
      rw [hdata]
      exact scanLink_cons_of_match _ _ _
        (tryMatchLink_plain t.data [] (data_ne_nil ht) (boolify_chars hch))
    rw [hdata] at hscan
    simp [extractLinkId, falsy, hbeq, hscan, string_mk_data]
  · intro t a ht hch ha hach
    have hdata : ("[[" ++ t ++ "|" ++ a ++ "]]").data =
        '[' :: '[' :: (t.data ++ ('|' :: (a.data ++ (']' :: ']' :: [])))) := by
      rw [String.data_append, String.data_append, String.data_append,
        String.data_append]
      show ((((['[', '['] ++ t.data) ++ ['|']) ++ a.data) ++ [']', ']']) = _
      simp
    have hne := string_ne_empty_of_data hdata
    have hbeq : (("[[" ++ t ++ "|" ++ a ++ "]]") == "") = false :=
      beq_eq_false_iff_ne.mpr hne
    have hscan : scanLink ("[[" ++ t ++ "|" ++ a ++ "]]").data = some t.data := by
      rw [hdata]
      refine scanLink_cons_of_match _ _ _
        (tryMatchLink_alias t.data a.data [] (data_ne_nil ht)
          (boolify_chars hch) (data_ne_nil ha) ?_)
      intro c hc
      simp [hach c hc]
    rw [hdata] at hscan
    simp [extractLinkId, falsy, hbeq, hscan, string_mk_data]
  · intro s hs hocc
    have hbeq : (s == "") = false := beq_eq_false_iff_ne.mpr hs
    cases hscan : scanLink s.data with
    | some t => exact absurd (hasLinkOcc_of_scan hscan) hocc
    | none => simp [extractLinkId, falsy, hbeq, hscan]
  · intro v hv
    simp [extractLinkId, hv]
  · intro s l hs
    have hbeq : (s == "") = false := beq_eq_false_iff_ne.mpr hs
    simp [extractLinkId, falsy, hbeq]
  · intro l
    rfl
  · intro s pre t suf hdecomp hne hch hleft
    have hmatch : tryMatchLink ('[' :: '[' :: (t ++ (']' :: ']' :: suf))) = some t :=
      tryMatchLink_plain t suf hne (boolify_chars hch)
    have hscan : scanLink s.data = some t := by
      rw [hdecomp]
      refine scanLink_first _ _ _ (fun i hi => ?_) hmatch
      have h := hleft i hi
      rw [hdecomp] at h
      exact h
    have hsne : s ≠ "" := by
      intro he
      rw [he] at hdecomp
      have h0 : ("" : String).data = [] := rfl
      rw [h0] at hdecomp
      simp at hdecomp
    have hbeq : (s == "") = false := beq_eq_false_iff_ne.mpr hsne
    simp [extractLinkId, falsy, hbeq, hscan]
  · intro s pre t a suf hdecomp hne hch hanil hach hleft
    have hmatch : tryMatchLink ('[' :: '[' :: (t ++ ('|' :: (a ++ (']' :: ']' :: suf))))) =
        some t :=
      tryMatchLink_alias t a suf hne (boolify_chars hch) hanil
        fun c hc => by simp [hach c hc]
    have hscan : scanLink s.data = some t := by
      rw [hdecomp]
      refine scanLink_first _ _ _ (fun i hi => ?_) hmatch
      have h := hleft i hi
      rw [hdecomp] at h
      exact h
    have hsne : s ≠ "" := by
      intro he
      rw [he] at hdecomp
      have h0 : ("" : String).data = [] := rfl
      rw [h0] at hdecomp
      simp at hdecomp
    have hbeq : (s == "") = false := beq_eq_false_iff_ne.mpr hsne
    simp [extractLinkId, falsy, hbeq, hscan]

/-- **C8, witness**: the amended behavior at concrete inputs — a plain link,
an aliased link, an occurrence-free string used verbatim, a falsy value, a
list taking its first element, and the leftmost embedded occurrence winning in
a string with two occurrences (plain and aliased shapes). -/
theorem C8_extractLinkId_witness :
    extractLinkId (.vStr "[[Target]]") = some "Target" ∧
    extractLinkId (.vStr "[[Target|Alias]]") = some "Target" ∧
    extractLinkId (.vStr "ab") = some "ab" ∧
    extractLinkId .vNull = none ∧
    extractLinkId (.vArr [.vStr "[[A]]", .vStr "[[B]]"]) =
      extractLinkId (.vStr "[[A]]") ∧
    extractLinkId (.vStr "a[[b]]c[[d]]e") = some "b" ∧
    extractLinkId (.vStr "x[[T|A]]y[[U]]") = some "T" := by
  refine ⟨C8_extractLinkId_amended.1 "Target" (by decide) (by decide),
    (C8_extractLinkId_amended.2.1) "Target" "Alias" (by decide) (by decide)
      (by decide) (by decide),
    (C8_extractLinkId_amended.2.2.1) "ab" (by decide) ?_,
    (C8_extractLinkId_amended.2.2.2.1) .vNull rfl,
    (C8_extractLinkId_amended.2.2.2.2.1) "[[A]]" [.vStr "[[B]]"] (by decide),
    (C8_extractLinkId_amended.2.2.2.2.2.2.1) "a[[b]]c[[d]]e" ['a'] ['b']
      ['c', '[', '[', 'd', ']', ']', 'e'] rfl (by decide) (by decide) (by decide),
    (C8_extractLinkId_amended.2.2.2.2.2.2.2) "x[[T|A]]y[[U]]" ['x'] ['T'] ['A']
      ['y', '[', '[', 'U', ']', ']'] rfl (by decide) (by decide) (by decide)
      (by decide) (by decide)⟩
  rintro (⟨pre, t, suf, hd, hne, _⟩ | ⟨pre, t, a, suf, hd, hne, _, hanil, _⟩) <;>
    have hlen := congrArg List.length hd <;>
    have ht := List.length_pos.mpr hne <;>
    simp [List.length_append] at hlen <;>
    omega

/-- **C9, counterexample.**  The claim says an integer epoch produces the
corresponding date, but the zero epoch — a perfectly valid time value — is
falsy in JS and `parseDate` returns an absent date for it, where the claimed
behavior (`parseDateSpec`) yields epoch 0. -/
theorem C9_parseDate_cex :
    parseDate (fun _ => none) (.vNum 0) = none ∧
    parseDateSpec (fun _ => none) (.vNum 0) = some 0 ∧
    (none : Option Int) ≠ some 0 :=
  ⟨rfl, rfl, by decide⟩

/-- **C9, amended claim.**  Date normalization accepts a native date value, a
string through the host date parser, or an integer epoch, and yields an
absent date (never a failure) on everything else — except that all falsy
inputs are mapped to an absent date first, so the zero epoch is treated as
absent.  Stated as: for every host parser mapping the empty string to an
invalid date, `parseDate` agrees with the amended specification on every
value. -/
theorem C9_parseDate_amended (jsP : String → Option Int) (hjs : jsP "" = none) :
    ∀ value : Val, parseDate jsP value = parseDateSpecAmended jsP value := by
  intro v
  cases v with
  | vNull => rfl
  | vBool b => cases b <;> rfl
  | vNum n =>
      by_cases hn : n = 0
      · subst hn; rfl
      · simp [parseDate, parseDateSpecAmended, parseDateSpec, falsy, hn]
  | vStr s =>
      by_cases hs : s = ""
      · subst hs
        simp [parseDate, parseDateSpecAmended, parseDateSpec, falsy, hjs]
      · simp [parseDate, parseDateSpecAmended, parseDateSpec, falsy, hs]
  | vDate t => rfl
  | vArr l => rfl

/-- **C9, witness**: the amended equivalence applied at a concrete parser and
value. -/
theorem C9_parseDate_witness :
    parseDate (fun _ => none) (.vNum 5) =
      parseDateSpecAmended (fun _ => none) (.vNum 5) :=
  C9_parseDate_amended (fun _ => none) rfl (.vNum 5)

theorem buildWBSNodeAux_progress (cache : List (String × Entity)) (fuel : Nat)
    (e : Entity) :
    (buildWBSNodeAux cache fuel e).progress =
      (if 0 < (buildWBSNodeAux cache fuel e).children.length then
        jsRoundDiv
          ((buildWBSNodeAux cache fuel e).children.foldl
            (fun s c => s + c.progress) 0)
          (buildWBSNodeAux cache fuel e).children.length
      else if hasProgressField e then e.progress else 0) := by
  cases fuel <;> rfl

/-- **C6.**  In every node returned by `buildWBSNode` (hence in the trees of
`getWBSTree`): a node with children has progress `Math.round` of the
arithmetic mean of its immediate children's computed progress; a node
without children has the entity's own stored progress value (0 for the
variants that store none). -/
theorem C6_buildWBSNode_progress (cache : List (String × Entity)) (e : Entity) :
    ((buildWBSNode cache e).children = [] →
      (buildWBSNode cache e).progress =
        (if hasProgressField e then e.progress else 0)) ∧
    ((buildWBSNode cache e).children ≠ [] →
      (buildWBSNode cache e).progress =
        jsRoundDiv
          ((buildWBSNode cache e).children.foldl (fun s c => s + c.progress) 0)
          (buildWBSNode cache e).children.length) := by
  have h := buildWBSNodeAux_progress cache (typeRank e.type) e
  constructor
  · intro hch
    rw [buildWBSNode] at hch ⊢
    rw [h, hch]
    simp
  · intro hch
    rw [buildWBSNode] at hch ⊢
    rw [h, if_pos (List.length_pos.mpr hch)]

/-- **C6, witness**: the specification's own example — a project whose three
children have progress 20, 40, 60 aggregates to 40. -/
theorem C6_buildWBSNode_witness :
    0 < (buildWBSNode wbsSampleCache wbsSampleProject).children.length ∧
    (buildWBSNode wbsSampleCache wbsSampleProject).progress =
      jsRoundDiv
        ((buildWBSNode wbsSampleCache wbsSampleProject).children.foldl
          (fun s c => s + c.progress) 0)
        (buildWBSNode wbsSampleCache wbsSampleProject).children.length ∧
    (buildWBSNode wbsSampleCache wbsSampleProject).progress = 40 := by
  refine ⟨by decide,
    (C6_buildWBSNode_progress wbsSampleCache wbsSampleProject).2
      (List.length_pos.mp (by decide)),
    by decide⟩

theorem mem_mapSet {α : Type} {m : List (String × α)} {k : String} {v : α}
    {p : String × α} (h : p ∈ mapSet m k v) : p ∈ m ∨ p = (k, v) := by
  unfold mapSet at h
  split_ifs at h
  · obtain ⟨q, hq, he⟩ := List.mem_map.mp h
    by_cases hk : (q.1 == k) = true
    · rw [if_pos hk] at he; right; exact he.symm
    · rw [if_neg hk] at he; left; rwa [← he]
  · rcases List.mem_append.mp h with h1 | h1
    · left; exact h1
    · right; simpa using h1

theorem parseFile_fields {jsP : String → Option Int} {file : VaultFile}
    {et : Option String} {e : Entity} (h : parseFile jsP file et = some e) :
    e.title = file.basename ∧ e.filePath = file.path ∧
    (∀ fm, file.frontmatter = some fm → fm.id = none ∨ fm.id = some "" →
      e.id = file.basename) := by
  unfold parseFile at h
  cases hfm : file.frontmatter with
  | none => rw [hfm] at h; cases h
  | some fm =>
      rw [hfm] at h
      simp only at h
      split_ifs at h <;> cases h <;>
        · refine ⟨rfl, rfl, ?_⟩
          intro fm2 hfm2 hid
          injection hfm2 with h2
          subst h2
          rcases hid with hid | hid <;> simp [orElseStr, hid]

theorem rebuildFrom_mem {jsP : String → Option Int}
    {scan : List (VaultFile × Option String)} :
    ∀ p ∈ rebuildFrom jsP scan, ∃ fe ∈ scan,
      parseFile jsP fe.1 fe.2 = some p.2 ∧ p.1 = p.2.id := by
  have key : ∀ (l : List (VaultFile × Option String))
      (acc : List (String × Entity)),
      (∀ p ∈ acc, ∃ fe ∈ scan, parseFile jsP fe.1 fe.2 = some p.2 ∧ p.1 = p.2.id) →
      (∀ fe ∈ l, fe ∈ scan) →
      ∀ p ∈ l.foldl
        (fun cache fe =>
          match parseFile jsP fe.1 fe.2 with
          | some e => mapSet cache e.id e
          | none => cache) acc,
        ∃ fe ∈ scan, parseFile jsP fe.1 fe.2 = some p.2 ∧ p.1 = p.2.id := by
    intro l
    induction l with
    | nil => intro acc hacc _ p hp; exact hacc p hp
    | cons fe l ih =>
        intro acc hacc hsub p hp
        simp only [List.foldl_cons] at hp
        cases hparse : parseFile jsP fe.1 fe.2 with
        | none =>
            rw [hparse] at hp
            exact ih acc hacc (fun x hx => hsub x (by simp [hx])) p hp
        | some e =>
            rw [hparse] at hp
            refine ih (mapSet acc e.id e) ?_ (fun x hx => hsub x (by simp [hx])) p hp
            intro q hq
            rcases mem_mapSet hq with hq1 | hq1
            · exact hacc q hq1
            · subst hq1
              exact ⟨fe, hsub fe (by simp), hparse, rfl⟩
  intro p hp
  exact key scan [] (by simp) (fun x hx => hx) p hp

/-- **C10.**  Every entity present in the index after a rebuild — over any
scan enumeration, hence in both the flat and the nested folder layout — has
its title equal to the basename of its backing document file, no matter what
title the attribute block stores (`parseFile` never reads it); and whenever
the attribute block lacks an id (absent key, or the falsy empty string), the
entity's id equals that basename as well. -/
theorem C10_rebuild_title_basename (jsP : String → Option Int)
    (scan : List (VaultFile × Option String)) :
    ∀ p ∈ rebuildFrom jsP scan, ∃ fe ∈ scan,
      parseFile jsP fe.1 fe.2 = some p.2 ∧
      p.2.title = fe.1.basename ∧ p.2.filePath = fe.1.path ∧
      (∀ fm, fe.1.frontmatter = some fm → fm.id = none ∨ fm.id = some "" →
        p.2.id = fe.1.basename) := by
  intro p hp
  obtain ⟨fe, hfe, hparse, _⟩ := rebuildFrom_mem p hp
  obtain ⟨ht, hpath, hid⟩ := parseFile_fields hparse
  exact ⟨fe, hfe, hparse, ht, hpath, hid⟩

/-- **C10, witness**: a stored document with a stored title and no id indexes
under its basename, with title and id both equal to the basename. -/
theorem C10_rebuild_title_basename_witness :
    ∃ fe ∈ c10Scan, parseFile (fun _ => none) fe.1 fe.2 = some c10Entity ∧
      c10Entity.title = fe.1.basename ∧ c10Entity.filePath = fe.1.path ∧
      (∀ fm, fe.1.frontmatter = some fm → fm.id = none ∨ fm.id = some "" →
        c10Entity.id = fe.1.basename) :=
  C10_rebuild_title_basename (fun _ => none) c10Scan ("Doc", c10Entity)
    (by decide)

/-! ## Association-list and graph-construction lemmas -/

theorem mapGet_eq_some_mem {α : Type} {m : List (String × α)} {k : String}
    {v : α} (h : mapGet m k = some v) : (k, v) ∈ m := by
  unfold mapGet at h
  cases hf : m.find? (fun p => p.1 == k) with
  | none => rw [hf] at h; cases h
  | some p =>
      rw [hf] at h
      injection h with hv
      have hkey := List.find?_some hf
      have hmem := List.mem_of_find?_eq_some hf
      have hk : p.1 = k := by simpa using hkey
      cases p with
      | mk a b =>
          simp only at hv hk
          subst hv
          subst hk
          exact hmem

theorem mapGet_isSome_iff {α : Type} {m : List (String × α)} {k : String} :
    (mapGet m k).isSome = true ↔ k ∈ m.map Prod.fst := by
  constructor
  · intro h
    cases hg : mapGet m k with
    | none => rw [hg] at h; cases h
    | some v => exact List.mem_map.mpr ⟨(k, v), mapGet_eq_some_mem hg, rfl⟩
  · intro h
    obtain ⟨p, hp, hk⟩ := List.mem_map.mp h
    unfold mapGet
    cases hf : m.find? (fun q => q.1 == k) with
    | some q => simp
    | none =>
        have hnone := List.find?_eq_none.mp hf p hp
        exact absurd (by simp [hk] : (p.1 == k) = true) hnone

theorem mapGet_of_mem_nodup {α : Type} {m : List (String × α)}
    (hnd : (m.map Prod.fst).Nodup) {k : String} {v : α} (h : (k, v) ∈ m) :
    mapGet m k = some v := by
  induction m with
  | nil => cases h
  | cons p m ih =>
      rw [List.map_cons, List.nodup_cons] at hnd
      rcases List.mem_cons.mp h with h1 | h1
      · subst h1
        unfold mapGet
        simp
      · have hk : (p.1 == k) = false := by
          rw [beq_eq_false_iff_ne]
          intro he
          exact hnd.1 (he ▸ List.mem_map.mpr ⟨(k, v), h1, rfl⟩)
        unfold mapGet
        rw [List.find?_cons_of_neg _ (by simp [hk])]
        exact ih hnd.2 h1

theorem mapGet_cons {α : Type} (a : String) (v : α) (m : List (String × α))
    (k : String) :
    mapGet ((a, v) :: m) k = if (a == k) = true then some v else mapGet m k := by
  unfold mapGet
  by_cases h : (a == k) = true
  · rw [@List.find?_cons_of_pos _ (fun q : String × α => q.1 == k) (a, v) m h,
      if_pos h]
    rfl
  · rw [@List.find?_cons_of_neg _ (fun q : String × α => q.1 == k) (a, v) m h,
      if_neg h]

theorem pushDependent_keys (m : List (String × GraphNode)) (dep nid : String) :
    (pushDependent m dep nid).map Prod.fst = m.map Prod.fst := by
  unfold pushDependent
  rw [List.map_map]
  apply List.map_congr_left
  intro p hp
  by_cases h : p.1 = dep <;> simp [h]

theorem pushDependent_get (m : List (String × GraphNode)) (dep nid x : String) :
    mapGet (pushDependent m dep nid) x =
      (mapGet m x).map fun nd =>
        if x = dep then { nd with dependents := nd.dependents ++ [nid] }
        else nd := by
  induction m with
  | nil => rfl
  | cons p m ih =>
      obtain ⟨a, v⟩ := p
      by_cases hpd : (a == dep) = true
      · have hd : a = dep := by simpa using hpd
        have hstep : pushDependent ((a, v) :: m) dep nid =
            (a, { v with dependents := v.dependents ++ [nid] }) ::
              pushDependent m dep nid := by
          simp [pushDependent, hd]
        rw [hstep, mapGet_cons, mapGet_cons]
        by_cases hpx : (a == x) = true
        · have hx : a = x := by simpa using hpx
          have hxd : x = dep := by rw [← hx, hd]
          rw [if_pos hpx, if_pos hpx]
          simp [hxd]
        · rw [if_neg hpx, if_neg hpx, ih]
      · have hstep : pushDependent ((a, v) :: m) dep nid =
            (a, v) :: pushDependent m dep nid := by
          have hd : ¬ a = dep := by simpa using hpd
          simp [pushDependent, hd]
        rw [hstep, mapGet_cons, mapGet_cons]
        by_cases hpx : (a == x) = true
        · have hx : a = x := by simpa using hpx
          have hxd : ¬ x = dep := by
            intro he
            exact hpd (by simp [hx, he])
          rw [if_pos hpx, if_pos hpx]
          simp [hxd]
        · rw [if_neg hpx, if_neg hpx, ih]

theorem processDeps_cons (nodeId d : String) (ds : List String)
    (acc : List (String × GraphNode) × List GraphEdge) :
    processDeps nodeId (d :: ds) acc =
      processDeps nodeId ds
        (if (mapGet acc.1 d).isSome then
          (pushDependent acc.1 d nodeId,
           acc.2 ++ [{ src := d, tgt := nodeId, isCritical := false }])
        else acc) := rfl

theorem processDeps_keys (nodeId : String) (ds : List String)
    (acc : List (String × GraphNode) × List GraphEdge) :
    (processDeps nodeId ds acc).1.map Prod.fst = acc.1.map Prod.fst := by
  induction ds generalizing acc with
  | nil => rfl
  | cons d ds ih =>
      rw [processDeps_cons]
      by_cases hd : (mapGet acc.1 d).isSome = true
      · rw [if_pos hd, ih]
        simpa using pushDependent_keys acc.1 d nodeId
      · rw [if_neg hd, ih]

theorem processDeps_get (nodeId : String) (ds : List String)
    (acc : List (String × GraphNode) × List GraphEdge) (x : String) :
    mapGet (processDeps nodeId ds acc).1 x =
      (mapGet acc.1 x).map fun nd =>
        { nd with dependents :=
            nd.dependents ++ (ds.filter fun d => d == x).map fun _ => nodeId } := by
  induction ds generalizing acc with
  | nil => cases h : mapGet acc.1 x <;> simp [processDeps, h]
  | cons d ds ih =>
      rw [processDeps_cons]
      by_cases hd : (mapGet acc.1 d).isSome = true
      · rw [if_pos hd, ih]
        dsimp only
        rw [pushDependent_get]
        cases hx : mapGet acc.1 x with
        | none => simp
        | some nd =>
            by_cases hxd : x = d
            · subst hxd
              simp [List.filter_cons, List.append_assoc]
            · have hne : (d == x) = false := by
                rw [beq_eq_false_iff_ne]
                exact fun he => hxd he.symm
              simp [List.filter_cons, hne, hxd]
      · rw [if_neg hd, ih]
        cases hx : mapGet acc.1 x with
        | none => simp
        | some nd =>
            have hne : (d == x) = false := by
              rw [beq_eq_false_iff_ne]
              intro he
              apply hd
              rw [he, hx]
              rfl
            simp [List.filter_cons, hne]

theorem processDeps_edges_flag (nodeId : String) (ds : List String)
    (acc : List (String × GraphNode) × List GraphEdge)
    (hacc : ∀ e ∈ acc.2, e.isCritical = false) :
    ∀ e ∈ (processDeps nodeId ds acc).2, e.isCritical = false := by
  induction ds generalizing acc with
  | nil => exact hacc
  | cons d ds ih =>
      rw [processDeps_cons]
      by_cases hd : (mapGet acc.1 d).isSome = true
      · rw [if_pos hd]
        apply ih
        intro e he
        dsimp only at he
        rcases List.mem_append.mp he with h1 | h1
        · exact hacc e h1
        · rw [List.mem_singleton] at h1
          subst h1
          rfl
      · rw [if_neg hd]
        exact ih acc hacc

theorem depFold_keys (ps : List (String × List String))
    (acc : List (String × GraphNode) × List GraphEdge) :
    ((ps.foldl (fun acc pr => processDeps pr.1 pr.2 acc) acc).1).map Prod.fst =
      acc.1.map Prod.fst := by
  induction ps generalizing acc with
  | nil => rfl
  | cons pr ps ih =>
      rw [List.foldl_cons, ih, processDeps_keys]

theorem depFold_get (ps : List (String × List String))
    (acc : List (String × GraphNode) × List GraphEdge) (x : String) :
    mapGet ((ps.foldl (fun acc pr => processDeps pr.1 pr.2 acc) acc).1) x =
      (mapGet acc.1 x).map fun nd =>
        { nd with dependents := nd.dependents ++ dependentContrib ps x } := by
  induction ps generalizing acc with
  | nil => cases h : mapGet acc.1 x <;> simp [dependentContrib, h]
  | cons pr ps ih =>
      rw [List.foldl_cons, ih, processDeps_get]
      cases hx : mapGet acc.1 x with
      | none => simp
      | some nd => simp [dependentContrib, List.append_assoc]

theorem depFold_edges_flag (ps : List (String × List String))
    (acc : List (String × GraphNode) × List GraphEdge)
    (hacc : ∀ e ∈ acc.2, e.isCritical = false) :
    ∀ e ∈ (ps.foldl (fun acc pr => processDeps pr.1 pr.2 acc) acc).2,
      e.isCritical = false := by
  induction ps generalizing acc with
  | nil => exact hacc
  | cons pr ps ih =>
      rw [List.foldl_cons]
      exact ih _ (processDeps_edges_flag _ _ _ hacc)

theorem mapSet_keys_nodup {α : Type} {m : List (String × α)}
    (hnd : (m.map Prod.fst).Nodup) (k : String) (v : α) :
    ((mapSet m k v).map Prod.fst).Nodup := by
  unfold mapSet
  by_cases hany : (m.any fun p => p.1 == k) = true
  · rw [if_pos hany, List.map_map]
    have : (m.map (Prod.fst ∘ fun p => if p.1 == k then (k, v) else p)) =
        m.map Prod.fst := by
      apply List.map_congr_left
      intro p hp
      by_cases h : p.1 = k <;> simp [h]
    rw [this]
    exact hnd
  · rw [if_neg hany, List.map_append]
    have hk : k ∉ m.map Prod.fst := by
      intro hmem
      obtain ⟨p, hp, he⟩ := List.mem_map.mp hmem
      exact hany (List.any_eq_true.mpr ⟨p, hp, by simp [he]⟩)
    simp [List.Nodup.append, List.nodup_append, hnd, hk]

theorem buildNodes_mem {tasks : List TaskInfo} {p : String × GraphNode}
    (h : p ∈ buildNodes tasks) : ∃ t ∈ tasks, p = (t.id, initGraphNode t) := by
  have key : ∀ (l : List TaskInfo) (acc : List (String × GraphNode)),
      p ∈ l.foldl (fun m t => mapSet m t.id (initGraphNode t)) acc →
      (∃ t ∈ l, p = (t.id, initGraphNode t)) ∨ p ∈ acc := by
    intro l
    induction l with
    | nil => exact fun acc h => Or.inr h
    | cons t l ih =>
        intro acc h
        rw [List.foldl_cons] at h
        rcases ih _ h with h1 | h1
        · obtain ⟨u, hu, he⟩ := h1
          exact Or.inl ⟨u, List.mem_cons_of_mem _ hu, he⟩
        · rcases mem_mapSet h1 with h2 | h2
          · exact Or.inr h2
          · exact Or.inl ⟨t, List.mem_cons_self _ _, h2⟩
  rcases key tasks [] h with h1 | h1
  · exact h1
  · cases h1

theorem buildNodes_keys_nodup (tasks : List TaskInfo) :
    ((buildNodes tasks).map Prod.fst).Nodup := by
  have key : ∀ (l : List TaskInfo) (acc : List (String × GraphNode)),
      (acc.map Prod.fst).Nodup →
      ((l.foldl (fun m t => mapSet m t.id (initGraphNode t)) acc).map
        Prod.fst).Nodup := by
    intro l
    induction l with
    | nil => exact fun acc h => h
    | cons t l ih =>
        intro acc h
        rw [List.foldl_cons]
        exact ih _ (mapSet_keys_nodup h _ _)
  exact key tasks [] (by simp)

theorem dependentContrib_mem_iff {ps : List (String × List String)}
    {x y : String} :
    y ∈ dependentContrib ps x ↔ ∃ pr ∈ ps, pr.1 = y ∧ x ∈ pr.2 := by
  unfold dependentContrib
  rw [List.mem_flatMap]
  constructor
  · rintro ⟨pr, hpr, hy⟩
    obtain ⟨d, hd, he⟩ := List.mem_map.mp hy
    refine ⟨pr, hpr, he, ?_⟩
    have := List.mem_filter.mp hd
    have hdx : d = x := by simpa using this.2
    exact hdx ▸ this.1
  · rintro ⟨pr, hpr, hy, hx⟩
    refine ⟨pr, hpr, List.mem_map.mpr ⟨x, List.mem_filter.mpr ⟨hx, by simp⟩, hy⟩⟩

theorem count_map_const (l : List String) (a c : String) :
    List.count c (l.map fun _ => a) = if c = a then l.length else 0 := by
  induction l with
  | nil => simp
  | cons x l ih =>
      by_cases h : c = a
      · subst h
        simp [List.count_cons, ih]
      · have : (a == c) = false := by
          rw [beq_eq_false_iff_ne]
          exact fun he => h he.symm
        simp [List.count_cons, ih, h, this, List.count_replicate]

theorem dependentContrib_count {ps : List (String × List String)}
    (hnd : (ps.map Prod.fst).Nodup) {c : String} {ds : List String}
    (h : (c, ds) ∈ ps) (x : String) :
    List.count c (dependentContrib ps x) = List.count x ds := by
  induction ps with
  | nil => cases h
  | cons pr ps ih =>
      rw [List.map_cons, List.nodup_cons] at hnd
      have hstep : dependentContrib (pr :: ps) x =
          ((pr.2.filter fun d => d == x).map fun _ => pr.1) ++
            dependentContrib ps x := by
        simp [dependentContrib]
      rw [hstep, List.count_append, count_map_const]
      rcases List.mem_cons.mp h with h1 | h1
      · have hpr1 : pr.1 = c := by rw [← h1]
        have hpr2 : pr.2 = ds := by rw [← h1]
        have hnot : c ∉ dependentContrib ps x := by
          intro hc
          obtain ⟨q, hq, hqc, _⟩ := dependentContrib_mem_iff.mp hc
          exact hnd.1 (hpr1 ▸ hqc ▸ List.mem_map.mpr ⟨q, hq, rfl⟩)
        rw [List.count_eq_zero.mpr hnot, if_pos hpr1.symm, hpr2]
        simp [List.count, List.countP_eq_length_filter]
      · have hne : ¬ c = pr.1 := by
          intro he
          exact hnd.1 (he ▸ List.mem_map.mpr ⟨(c, ds), h1, rfl⟩)
        rw [if_neg hne, Nat.zero_add, ih hnd.2 h1]

theorem buildGraph_keys (tasks : List TaskInfo) :
    (buildGraph tasks).1.map Prod.fst = (buildNodes tasks).map Prod.fst := by
  unfold buildGraph addDependentsAndEdges
  exact depFold_keys _ _

theorem buildGraph_get (tasks : List TaskInfo) (x : String) :
    mapGet (buildGraph tasks).1 x =
      (mapGet (buildNodes tasks) x).map fun nd =>
        { nd with dependents := nd.dependents ++
            dependentContrib ((buildNodes tasks).map fun p =>
              (p.1, p.2.dependencies)) x } := by
  unfold buildGraph addDependentsAndEdges
  exact depFold_get _ _ _

theorem buildGraph_edges_flag (tasks : List TaskInfo) :
    ∀ e ∈ (buildGraph tasks).2, e.isCritical = false := by
  unfold buildGraph addDependentsAndEdges
  exact depFold_edges_flag _ _ (fun e he => (List.not_mem_nil e he).elim)

theorem buildNodes_get_fields {tasks : List TaskInfo} {x : String}
    {n : GraphNode} (h : mapGet (buildNodes tasks) x = some n) :
    n.id = x ∧ n.dependents = [] ∧ n.level = 0 ∧ n.isCritical = false ∧
      n.isBottleneck = false ∧
      ∃ t ∈ tasks, t.id = x ∧ n.dependencies = t.dependencies ∧
        n.status = t.status ∧ n.progress = t.progress ∧ n.title = t.title := by
  obtain ⟨t, ht, he⟩ := buildNodes_mem (mapGet_eq_some_mem h)
  injection he with h1 h2
  subst h2
  exact ⟨h1.symm, rfl, rfl, rfl, rfl, t, ht, h1.symm, rfl, rfl, rfl, rfl⟩

theorem depPairs_keys (tasks : List TaskInfo) :
    (((buildNodes tasks).map fun p => (p.1, p.2.dependencies)).map
      Prod.fst) = (buildNodes tasks).map Prod.fst := by
  rw [List.map_map]
  rfl

theorem buildGraph_dependents_count {tasks : List TaskInfo} {c x : String}
    {nc nx : GraphNode}
    (hc : mapGet (buildGraph tasks).1 c = some nc)
    (hx : mapGet (buildGraph tasks).1 x = some nx) :
    List.count c nx.dependents = List.count x nc.dependencies := by
  rw [buildGraph_get] at hc hx
  obtain ⟨nc0, hc0, hce⟩ := Option.map_eq_some'.mp hc
  obtain ⟨nx0, hx0, hxe⟩ := Option.map_eq_some'.mp hx
  have hcd : nc.dependencies = nc0.dependencies := by rw [← hce]
  have hxd : nx.dependents = nx0.dependents ++
      dependentContrib ((buildNodes tasks).map fun p =>
        (p.1, p.2.dependencies)) x := by rw [← hxe]
  have hx0dep : nx0.dependents = [] := (buildNodes_get_fields hx0).2.1
  have hmem : (c, nc0.dependencies) ∈
      ((buildNodes tasks).map fun p => (p.1, p.2.dependencies)) :=
    List.mem_map.mpr ⟨(c, nc0), mapGet_eq_some_mem hc0, rfl⟩
  have hnd : ((((buildNodes tasks).map fun p =>
      (p.1, p.2.dependencies)).map Prod.fst)).Nodup := by
    rw [depPairs_keys]
    exact buildNodes_keys_nodup tasks
  rw [hxd, hx0dep, List.nil_append, hcd]
  exact dependentContrib_count hnd hmem x

theorem buildGraph_dependents_closed {tasks : List TaskInfo} {x : String}
    {nx : GraphNode} (hx : mapGet (buildGraph tasks).1 x = some nx) :
    ∀ y ∈ nx.dependents, (mapGet (buildGraph tasks).1 y).isSome = true := by
  intro y hy
  rw [buildGraph_get] at hx
  obtain ⟨nx0, hx0, hxe⟩ := Option.map_eq_some'.mp hx
  have hxd : nx.dependents = nx0.dependents ++
      dependentContrib ((buildNodes tasks).map fun p =>
        (p.1, p.2.dependencies)) x := by rw [← hxe]
  have hx0dep : nx0.dependents = [] := (buildNodes_get_fields hx0).2.1
  rw [hxd, hx0dep, List.nil_append] at hy
  obtain ⟨pr, hpr, hy1, _⟩ := dependentContrib_mem_iff.mp hy
  have hykey : y ∈ (buildNodes tasks).map Prod.fst := by
    rw [← depPairs_keys]
    exact List.mem_map.mpr ⟨pr, hpr, hy1⟩
  rw [buildGraph_get]
  rw [Option.isSome_map']
  rw [mapGet_isSome_iff]
  exact hykey

theorem buildGraph_dependents_iff {tasks : List TaskInfo} {x : String}
    {nx : GraphNode} (hx : mapGet (buildGraph tasks).1 x = some nx)
    (y : String) :
    y ∈ nx.dependents ↔
      ∃ ny0, mapGet (buildNodes tasks) y = some ny0 ∧
        x ∈ ny0.dependencies := by
  rw [buildGraph_get] at hx
  obtain ⟨nx0, hx0, hxe⟩ := Option.map_eq_some'.mp hx
  have hxd : nx.dependents = nx0.dependents ++
      dependentContrib ((buildNodes tasks).map fun p =>
        (p.1, p.2.dependencies)) x := by rw [← hxe]
  have hx0dep : nx0.dependents = [] := (buildNodes_get_fields hx0).2.1
  rw [hxd, hx0dep, List.nil_append, dependentContrib_mem_iff]
  constructor
  · rintro ⟨pr, hpr, hy1, hy2⟩
    obtain ⟨q, hq, he⟩ := List.mem_map.mp hpr
    obtain ⟨a, b⟩ := q
    refine ⟨b, ?_, ?_⟩
    · have ha : a = y := by rw [← hy1, ← he]
      rw [← ha]
      exact mapGet_of_mem_nodup (buildNodes_keys_nodup tasks) hq
    · have hb : pr.2 = b.dependencies := by rw [← he]
      rw [← hb]
      exact hy2
  · rintro ⟨ny0, hy0, hmem⟩
    refine ⟨(y, ny0.dependencies),
      List.mem_map.mpr ⟨(y, ny0), mapGet_eq_some_mem hy0, rfl⟩, rfl, hmem⟩

theorem trace_cyc_stepA (f : Nat) (p : List String) :
    traceLongestPath (buildGraph cyclicSinkTasks).1 (f+1) "A" p =
      (match traceLongestPath (buildGraph cyclicSinkTasks).1 f "B" (p ++ ["A"]) with
       | none => none
       | some sub =>
           some (if sub.length > (p ++ ["A"]).length then sub
                 else p ++ ["A"])) := rfl

theorem trace_cyc_stepB (f : Nat) (p : List String) :
    traceLongestPath (buildGraph cyclicSinkTasks).1 (f+1) "B" p =
      (match traceLongestPath (buildGraph cyclicSinkTasks).1 f "A" (p ++ ["B"]) with
       | none => none
       | some sub =>
           some (if sub.length > (p ++ ["B"]).length then sub
                 else p ++ ["B"])) := rfl

theorem trace_cyc_stepC (f : Nat) (p : List String) :
    traceLongestPath (buildGraph cyclicSinkTasks).1 (f+1) "C" p =
      (match traceLongestPath (buildGraph cyclicSinkTasks).1 f "A" (p ++ ["C"]) with
       | none => none
       | some sub =>
           some (if sub.length > (p ++ ["C"]).length then sub
                 else p ++ ["C"])) := rfl

theorem trace_cyclic_AB (fuel : Nat) : ∀ p : List String,
    traceLongestPath (buildGraph cyclicSinkTasks).1 fuel "A" p = none ∧
    traceLongestPath (buildGraph cyclicSinkTasks).1 fuel "B" p = none := by
  induction fuel with
  | zero => exact fun p => ⟨rfl, rfl⟩
  | succ fuel ih =>
      intro p
      constructor
      · rw [trace_cyc_stepA, (ih (p ++ ["A"])).2]
      · rw [trace_cyc_stepB, (ih (p ++ ["B"])).1]

/-- C4: the claim that the critical-path computation terminates on every node
set is false: `traceLongestPath` has no visited check, so on the cyclic data
`cyclicSinkTasks` the recursion from the sink `"C"` never finishes (`none` at
every fuel models the real recursion diverging), and `findCriticalPath` on
that graph consequently never produces a result. -/
theorem C4_traceLongestPath_diverges :
    (∀ fuel p,
      traceLongestPath (buildGraph cyclicSinkTasks).1 fuel "C" p = none) ∧
    findCriticalPath (buildGraph cyclicSinkTasks).1
      (buildGraph cyclicSinkTasks).2 = none := by
  constructor
  · intro fuel p
    cases fuel with
    | zero => rfl
    | succ fuel => rw [trace_cyc_stepC, (trace_cyclic_AB fuel (p ++ ["C"])).1]
  · rfl

/-- C3: counterexample to the claim that nodes left with nonzero in-degree
after the queue empties are reported as unresolved/cyclic and not assigned a
level.  On the cyclic data `cyclicTasks` the queue empties with no node ever
dequeued and both nodes left at in-degree 1, yet both still carry the level 0
they were initialized with — the same level a genuine source receives — and
`calculateLayout` returns no cyclic/unresolved report of any kind. -/
theorem C3_layout_cex :
    (calculateLayout (buildGraph cyclicTasks).1).2.2 = [] ∧
    (calculateLayout (buildGraph cyclicTasks).1).2.1 "A" = 1 ∧
    (calculateLayout (buildGraph cyclicTasks).1).2.1 "B" = 1 ∧
    (calculateLayout (buildGraph cyclicTasks).1).1 "A" = 0 ∧
    (calculateLayout (buildGraph cyclicTasks).1).1 "B" = 0 := by
  refine ⟨rfl, rfl, rfl, rfl, rfl⟩

/-! ## `listMax0` and filter-counting helpers -/

theorem foldl_max_eq (l : List Nat) : ∀ a : Nat, l.foldl max a = max a (l.foldl max 0) := by
  induction l with
  | nil => intro a; simp
  | cons x l ih =>
      intro a
      rw [List.foldl_cons, List.foldl_cons, ih (max a x), ih (max 0 x),
        Nat.zero_max, Nat.max_assoc]

theorem listMax0_cons (x : Nat) (l : List Nat) :
    listMax0 (x :: l) = max x (listMax0 l) := by
  unfold listMax0
  rw [List.foldl_cons, foldl_max_eq, Nat.zero_max]

theorem listMax0_append (l1 l2 : List Nat) :
    listMax0 (l1 ++ l2) = max (listMax0 l1) (listMax0 l2) := by
  unfold listMax0
  rw [List.foldl_append, foldl_max_eq]

theorem listMax0_perm {l1 l2 : List Nat} (h : List.Perm l1 l2) :
    listMax0 l1 = listMax0 l2 := by
  induction h with
  | nil => rfl
  | cons x h ih => rw [listMax0_cons, listMax0_cons, ih]
  | swap x y l =>
      rw [listMax0_cons, listMax0_cons, listMax0_cons, listMax0_cons,
        Nat.max_left_comm]
  | trans h1 h2 ih1 ih2 => rw [ih1, ih2]

theorem listMax0_replicate (n : Nat) (x : Nat) (h : n ≠ 0) :
    listMax0 (List.replicate n x) = x := by
  induction n with
  | zero => cases h rfl
  | succ n ih =>
      rw [List.replicate_succ, listMax0_cons]
      cases n with
      | zero => simp [listMax0]
      | succ m => rw [ih (by omega), Nat.max_self]

theorem listMax0_map_succ (l : List Nat) (h : l ≠ []) :
    listMax0 (l.map fun x => x + 1) = listMax0 l + 1 := by
  induction l with
  | nil => cases h rfl
  | cons x l ih =>
      cases l with
      | nil => simp [listMax0]
      | cons y l =>
          rw [List.map_cons, listMax0_cons, listMax0_cons, ih (by simp),
            Nat.succ_max_succ]

theorem length_filter_compl {α : Type} (p : α → Bool) (l : List α) :
    (l.filter p).length + (l.filter fun x => !(p x)).length = l.length := by
  induction l with
  | nil => rfl
  | cons x l ih =>
      by_cases h : p x = true
      · simp only [List.filter_cons, h, Bool.not_true, if_true,
          Bool.false_eq_true, if_false, List.length_cons]
        omega
      · have h2 : p x = false := by
          cases hpx : p x
          · rfl
          · exact absurd hpx h
        simp only [List.filter_cons, h2, Bool.not_false, if_true,
          Bool.false_eq_true, if_false, List.length_cons]
        omega

theorem count_filter_of_neg {p : String → Bool} {a : String}
    (h : p a = false) (l : List String) : List.count a (l.filter p) = 0 := by
  rw [List.count_eq_zero]
  intro hmem
  have h2 := (List.mem_filter.mp hmem).2
  rw [h] at h2
  cases h2

theorem filter_mem_append_perm (P : List String) (cur : String)
    (hcur : cur ∉ P) (l : List String) :
    List.Perm (l.filter fun d => decide (d ∈ P ++ [cur]))
      ((l.filter fun d => decide (d ∈ P)) ++ (l.filter fun d => d == cur)) := by
  induction l with
  | nil => exact List.Perm.refl _
  | cons x l ih =>
      by_cases hx : x = cur
      · subst hx
        have h1 : (decide (x ∈ P ++ [x])) = true := by simp
        have h2 : (decide (x ∈ P)) = false := by simp [hcur]
        have h3 : (x == x) = true := by simp
        rw [List.filter_cons, List.filter_cons, List.filter_cons, h1, h2, h3,
          if_pos rfl, if_neg (by simp), if_pos rfl]
        exact (List.Perm.cons x ih).trans List.perm_middle.symm
      · by_cases hxp : x ∈ P
        · have h1 : (decide (x ∈ P ++ [cur])) = true := by simp [hxp]
          have h2 : (decide (x ∈ P)) = true := by simp [hxp]
          have h3 : (x == cur) = false := by
            rw [beq_eq_false_iff_ne]
            exact hx
          rw [List.filter_cons, List.filter_cons, List.filter_cons, h1, h2, h3,
            if_pos rfl, if_pos rfl, if_neg (by simp), List.cons_append]
          exact List.Perm.cons x ih
        · have h1 : (decide (x ∈ P ++ [cur])) = false := by simp [hxp, hx]
          have h2 : (decide (x ∈ P)) = false := by simp [hxp]
          have h3 : (x == cur) = false := by
            rw [beq_eq_false_iff_ne]
            exact hx
          rw [List.filter_cons, List.filter_cons, List.filter_cons, h1, h2, h3,
            if_neg (by simp), if_neg (by simp), if_neg (by simp)]
          exact ih

theorem length_filter_append_singleton (P : List String) (cur : String)
    (hcur : cur ∉ P) (l : List String) :
    (l.filter fun d => decide (d ∈ P ++ [cur])).length =
      (l.filter fun d => decide (d ∈ P)).length + List.count cur l := by
  rw [(filter_mem_append_perm P cur hcur l).length_eq, List.length_append]
  congr 1
  rw [List.filter_beq, List.length_replicate]

/-! ## `initInDegree` -/

theorem foldl_fupd_not_mem {α : Type} (g : String × GraphNode → α) :
    ∀ (l : List (String × GraphNode)) (f : String → α) (id : String),
      id ∉ l.map Prod.fst →
      l.foldl (fun f p => fupd f p.1 (g p)) f id = f id := by
  intro l
  induction l with
  | nil => intro f id h; rfl
  | cons p l ih =>
      intro f id h
      rw [List.map_cons] at h
      simp only [List.mem_cons, not_or] at h
      rw [List.foldl_cons, ih _ _ h.2]
      unfold fupd
      rw [if_neg h.1]

theorem foldl_fupd_mem {α : Type} (g : String × GraphNode → α) :
    ∀ (l : List (String × GraphNode)) (f : String → α) (p : String × GraphNode),
      (l.map Prod.fst).Nodup → p ∈ l →
      l.foldl (fun f q => fupd f q.1 (g q)) f p.1 = g p := by
  intro l
  induction l with
  | nil => intro f p _ h; cases h
  | cons q l ih =>
      intro f p hnd hp
      rw [List.map_cons, List.nodup_cons] at hnd
      rw [List.foldl_cons]
      rcases List.mem_cons.mp hp with h1 | h1
      · subst h1
        rw [foldl_fupd_not_mem g l _ p.1 hnd.1]
        unfold fupd
        rw [if_pos rfl]
      · exact ih _ _ hnd.2 h1

theorem initInDegree_spec (nodes : List (String × GraphNode))
    (hnd : (nodes.map Prod.fst).Nodup) (id : String) :
    initInDegree nodes id = ((inSetDeps nodes id).length : Int) := by
  cases hid : mapGet nodes id with
  | none =>
      have hnk : id ∉ nodes.map Prod.fst := by
        intro h
        have h2 := mapGet_isSome_iff.mpr h
        rw [hid] at h2
        cases h2
      have h3 := foldl_fupd_not_mem
        (fun p => ((p.2.dependencies.filter fun d =>
          (mapGet nodes d).isSome).length : Int)) nodes (fun _ => 0) id hnk
      have h4 : inSetDeps nodes id = [] := by
        unfold inSetDeps
        rw [hid]
        rfl
      rw [h4]
      exact h3
  | some n =>
      have hmem : (id, n) ∈ nodes := mapGet_eq_some_mem hid
      have h3 := foldl_fupd_mem
        (fun p => ((p.2.dependencies.filter fun d =>
          (mapGet nodes d).isSome).length : Int)) nodes (fun _ => 0) (id, n)
        hnd hmem
      have h4 : inSetDeps nodes id =
          n.dependencies.filter fun d => (mapGet nodes d).isSome := by
        unfold inSetDeps
        rw [hid]
        rfl
      rw [h4]
      exact h3

/-! ## `stepDeps` -/

theorem stepDeps_cons (nodes : List (String × GraphNode)) (cur d : String)
    (ds : List String) (lvl : String → Nat) (deg : String → Int)
    (q : List String) :
    stepDeps nodes cur (d :: ds) lvl deg q =
      if (mapGet nodes d).isSome then
        stepDeps nodes cur ds (fupd lvl d (max (lvl d) (lvl cur + 1)))
          (fupd deg d (deg d - 1))
          (if deg d - 1 = 0 then q ++ [d] else q)
      else stepDeps nodes cur ds lvl deg q := rfl

theorem stepDeps_lvl (nodes : List (String × GraphNode)) (cur : String) :
    ∀ (ds : List String) (lvl : String → Nat) (deg : String → Int)
      (q : List String), cur ∉ ds → ∀ id,
      (stepDeps nodes cur ds lvl deg q).1 id =
        if id ∈ ds.filter (fun d => (mapGet nodes d).isSome) then
          max (lvl id) (lvl cur + 1)
        else lvl id := by
  intro ds
  induction ds with
  | nil =>
      intro lvl deg q _ id
      simp [stepDeps]
  | cons d ds ih =>
      intro lvl deg q hcur id
      have hcur1 : ¬ cur = d := fun h => hcur (by rw [h]; exact List.mem_cons_self _ _)
      have hcur2 : cur ∉ ds := fun h => hcur (List.mem_cons_of_mem _ h)
      by_cases hd : (mapGet nodes d).isSome = true
      · have hfil : (d :: ds).filter (fun x => (mapGet nodes x).isSome) =
            d :: ds.filter (fun x => (mapGet nodes x).isSome) := by
          rw [List.filter_cons, if_pos hd]
        rw [stepDeps_cons, if_pos hd,
          ih (fupd lvl d (max (lvl d) (lvl cur + 1))) _ _ hcur2 id, hfil]
        have hlc : fupd lvl d (max (lvl d) (lvl cur + 1)) cur = lvl cur := by
          unfold fupd
          rw [if_neg hcur1]
        by_cases hidd : id = d
        · subst hidd
          have hfid : fupd lvl id (max (lvl id) (lvl cur + 1)) id =
              max (lvl id) (lvl cur + 1) := by
            unfold fupd
            rw [if_pos rfl]
          rw [if_pos (List.mem_cons_self _ _), hlc, hfid]
          by_cases hmem : id ∈ ds.filter (fun x => (mapGet nodes x).isSome)
          · rw [if_pos hmem, Nat.max_assoc, Nat.max_self]
          · rw [if_neg hmem]
        · have hfid : fupd lvl d (max (lvl d) (lvl cur + 1)) id = lvl id := by
            unfold fupd
            rw [if_neg hidd]
          rw [hfid, hlc]
          by_cases hmem : id ∈ ds.filter (fun x => (mapGet nodes x).isSome)
          · rw [if_pos hmem, if_pos (List.mem_cons_of_mem _ hmem)]
          · rw [if_neg hmem, if_neg (by
              intro h
              rcases List.mem_cons.mp h with h1 | h1
              · exact hidd h1
              · exact hmem h1)]
      · have hfil : (d :: ds).filter (fun x => (mapGet nodes x).isSome) =
            ds.filter (fun x => (mapGet nodes x).isSome) := by
          rw [List.filter_cons, if_neg hd]
        rw [stepDeps_cons, if_neg hd, ih lvl deg q hcur2 id, hfil]

theorem stepDeps_deg (nodes : List (String × GraphNode)) (cur : String) :
    ∀ (ds : List String) (lvl : String → Nat) (deg : String → Int)
      (q : List String) (id : String),
      (stepDeps nodes cur ds lvl deg q).2.1 id =
        deg id - (List.count id
          (ds.filter (fun d => (mapGet nodes d).isSome)) : Int) := by
  intro ds
  induction ds with
  | nil =>
      intro lvl deg q id
      simp [stepDeps]
  | cons d ds ih =>
      intro lvl deg q id
      by_cases hd : (mapGet nodes d).isSome = true
      · have hfil : (d :: ds).filter (fun x => (mapGet nodes x).isSome) =
            d :: ds.filter (fun x => (mapGet nodes x).isSome) := by
          rw [List.filter_cons, if_pos hd]
        rw [stepDeps_cons, if_pos hd, ih, hfil]
        by_cases hidd : id = d
        · subst hidd
          have hfid : fupd deg id (deg id - 1) id = deg id - 1 := by
            unfold fupd
            rw [if_pos rfl]
          rw [hfid, List.count_cons_self]
          push_cast
          omega
        · have hfid : fupd deg d (deg d - 1) id = deg id := by
            unfold fupd
            rw [if_neg hidd]
          rw [hfid, List.count_cons_of_ne hidd]
      · have hfil : (d :: ds).filter (fun x => (mapGet nodes x).isSome) =
            ds.filter (fun x => (mapGet nodes x).isSome) := by
          rw [List.filter_cons, if_neg hd]
        rw [stepDeps_cons, if_neg hd, ih, hfil]

theorem stepDeps_queue (nodes : List (String × GraphNode)) (cur : String) :
    ∀ (ds : List String) (lvl : String → Nat) (deg : String → Int)
      (q : List String),
      (∀ id, (mapGet nodes id).isSome = true →
        (List.count id (ds.filter fun d => (mapGet nodes d).isSome) : Int) ≤
          deg id) →
      q.Nodup → (∀ id ∈ q, deg id = 0) →
      (stepDeps nodes cur ds lvl deg q).2.2.Nodup ∧
      (∀ id, id ∈ (stepDeps nodes cur ds lvl deg q).2.2 ↔
        id ∈ q ∨
          (0 < List.count id (ds.filter fun d => (mapGet nodes d).isSome) ∧
           deg id = (List.count id
             (ds.filter fun d => (mapGet nodes d).isSome) : Int))) ∧
      (∀ id ∈ (stepDeps nodes cur ds lvl deg q).2.2,
        deg id = (List.count id
          (ds.filter fun d => (mapGet nodes d).isSome) : Int)) := by
  intro ds
  induction ds with
  | nil =>
      intro lvl deg q _ hq hq0
      refine ⟨hq, fun id => ?_, fun id hid => ?_⟩
      · simp only [stepDeps, List.filter_nil, List.count_nil]
        constructor
        · exact fun h => Or.inl h
        · rintro (h | ⟨h, _⟩)
          · exact h
          · omega
      · simp only [stepDeps] at hid
        simp only [List.filter_nil, List.count_nil]
        push_cast
        rw [hq0 id hid]
  | cons d ds ih =>
      intro lvl deg q hcnt hq hq0
      by_cases hd : (mapGet nodes d).isSome = true
      · have hfil : (d :: ds).filter (fun d => (mapGet nodes d).isSome) =
            d :: ds.filter (fun d => (mapGet nodes d).isSome) := by
          rw [List.filter_cons, if_pos hd]
        have hdq : d ∉ q := by
          intro hmem
          have h1 := hq0 d hmem
          have h2 := hcnt d hd
          rw [hfil, List.count_cons_self, h1] at h2
          push_cast at h2
          omega
        have hcnt' : ∀ id, (mapGet nodes id).isSome = true →
            (List.count id (ds.filter fun d => (mapGet nodes d).isSome) : Int) ≤
              fupd deg d (deg d - 1) id := by
          intro id hid
          by_cases hidd : id = d
          · subst hidd
            have := hcnt id hid
            rw [hfil, List.count_cons_self] at this
            unfold fupd
            rw [if_pos rfl]
            push_cast at this ⊢
            omega
          · have := hcnt id hid
            rw [hfil, List.count_cons_of_ne hidd] at this
            unfold fupd
            rw [if_neg hidd]
            exact this
        have hq' : (if deg d - 1 = 0 then q ++ [d] else q).Nodup := by
          by_cases hz : deg d - 1 = 0
          · rw [if_pos hz]
            simp [List.nodup_append, hq, hdq]
          · rw [if_neg hz]
            exact hq
        have hq0' : ∀ id ∈ (if deg d - 1 = 0 then q ++ [d] else q),
            fupd deg d (deg d - 1) id = 0 := by
          intro id hid
          by_cases hz : deg d - 1 = 0
          · rw [if_pos hz] at hid
            rcases List.mem_append.mp hid with h1 | h1
            · have hne : ¬ id = d := fun he => hdq (he ▸ h1)
              unfold fupd
              rw [if_neg hne]
              exact hq0 id h1
            · rw [List.mem_singleton] at h1
              subst h1
              unfold fupd
              rw [if_pos rfl]
              exact hz
          · rw [if_neg hz] at hid
            have hne : ¬ id = d := fun he => hdq (he ▸ hid)
            unfold fupd
            rw [if_neg hne]
            exact hq0 id hid
        obtain ⟨ihn, ihm, ihz⟩ := ih (fupd lvl d (max (lvl d) (lvl cur + 1)))
          (fupd deg d (deg d - 1)) (if deg d - 1 = 0 then q ++ [d] else q)
          hcnt' hq' hq0'
        rw [stepDeps_cons, if_pos hd]
        refine ⟨ihn, fun id => ?_, fun id hid => ?_⟩
        · rw [ihm id, hfil]
          by_cases hidd : id = d
          · subst hidd
            rw [List.count_cons_self]
            have hcd := hcnt id hd
            rw [hfil, List.count_cons_self] at hcd
            constructor
            · rintro (h1 | ⟨h1, h2⟩)
              · by_cases hz : deg id - 1 = 0
                · rw [if_pos hz] at h1
                  rcases List.mem_append.mp h1 with h3 | h3
                  · exact absurd h3 hdq
                  · right
                    constructor
                    · omega
                    · push_cast at hcd ⊢
                      omega
                · rw [if_neg hz] at h1
                  exact absurd h1 hdq
              · right
                have hfd : fupd deg id (deg id - 1) id = deg id - 1 := by
                  unfold fupd
                  rw [if_pos rfl]
                rw [hfd] at h2
                constructor
                · omega
                · push_cast at h2 ⊢
                  omega
            · rintro (h1 | ⟨h1, h2⟩)
              · exact absurd h1 hdq
              · have hfd : fupd deg id (deg id - 1) id = deg id - 1 := by
                  unfold fupd
                  rw [if_pos rfl]
                by_cases hz : deg id - 1 = 0
                · left
                  rw [if_pos hz]
                  exact List.mem_append.mpr (Or.inr (List.mem_singleton.mpr rfl))
                · right
                  rw [hfd]
                  push_cast at h2 hcd ⊢
                  constructor
                  · omega
                  · omega
          · have hfd : fupd deg d (deg d - 1) id = deg id := by
              unfold fupd
              rw [if_neg hidd]
            rw [hfd, List.count_cons_of_ne hidd]
            have hqq : id ∈ (if deg d - 1 = 0 then q ++ [d] else q) ↔ id ∈ q := by
              by_cases hz : deg d - 1 = 0
              · rw [if_pos hz]
                constructor
                · intro h1
                  rcases List.mem_append.mp h1 with h3 | h3
                  · exact h3
                  · rw [List.mem_singleton] at h3
                    exact absurd h3 hidd
                · exact fun h1 => List.mem_append.mpr (Or.inl h1)
              · rw [if_neg hz]
            rw [hqq]
        · have := ihz id hid
          by_cases hidd : id = d
          · subst hidd
            have hfd : fupd deg id (deg id - 1) id = deg id - 1 := by
              unfold fupd
              rw [if_pos rfl]
            rw [hfd] at this
            rw [hfil, List.count_cons_self]
            push_cast at this ⊢
            omega
          · have hfd : fupd deg d (deg d - 1) id = deg id := by
              unfold fupd
              rw [if_neg hidd]
            rw [hfd] at this
            rw [hfil, List.count_cons_of_ne hidd]
            exact this
      · have hfil : (d :: ds).filter (fun d => (mapGet nodes d).isSome) =
            ds.filter (fun d => (mapGet nodes d).isSome) := by
          rw [List.filter_cons, if_neg hd]
        have hcnt' : ∀ id, (mapGet nodes id).isSome = true →
            (List.count id (ds.filter fun d => (mapGet nodes d).isSome) : Int) ≤
              deg id := by
          intro id hid
          have := hcnt id hid
          rwa [hfil] at this
        obtain ⟨ihn, ihm, ihz⟩ := ih lvl deg q hcnt' hq hq0
        rw [stepDeps_cons, if_neg hd]
        refine ⟨ihn, fun id => ?_, fun id hid => ?_⟩
        · rw [ihm id, hfil]
        · rw [hfil]
          exact ihz id hid

/-! ## The BFS loop invariant -/

theorem kahn_step (nodes : List (String × GraphNode))
    (hcounts : ∀ {c x : String} {nc nx : GraphNode},
      mapGet nodes c = some nc → mapGet nodes x = some nx →
      List.count c nx.dependents = List.count x nc.dependencies)
    (cur : String) (rest : List String) (lvl : String → Nat)
    (deg : String → Int) (P : List String)
    (hinv : KInv nodes (cur :: rest) lvl deg P) :
    KInv nodes
      (stepDeps nodes cur
        (((mapGet nodes cur).map fun n => n.dependents).getD []) lvl deg
        rest).2.2
      (stepDeps nodes cur
        (((mapGet nodes cur).map fun n => n.dependents).getD []) lvl deg
        rest).1
      (stepDeps nodes cur
        (((mapGet nodes cur).map fun n => n.dependents).getD []) lvl deg
        rest).2.1
      (P ++ [cur]) := by
  have hcurq : cur ∈ cur :: rest := List.mem_cons_self _ _
  have hcursome : (mapGet nodes cur).isSome = true := hinv.qkeys cur hcurq
  obtain ⟨ncur, hncur⟩ := Option.isSome_iff_exists.mp hcursome
  have hds : (((mapGet nodes cur).map fun n => n.dependents).getD []) =
      ncur.dependents := by
    rw [hncur]
    rfl
  rw [hds]
  set ds := ncur.dependents with hdsdef
  have htrans : ∀ id, (mapGet nodes id).isSome = true →
      List.count id (ds.filter fun d => (mapGet nodes d).isSome) =
        List.count cur (inSetDeps nodes id) := by
    intro id hid
    obtain ⟨nid, hnid⟩ := Option.isSome_iff_exists.mp hid
    have h1 : List.count id (ds.filter fun d => (mapGet nodes d).isSome) =
        List.count id ds := List.count_filter hid
    have h2 : List.count id ncur.dependents = List.count cur nid.dependencies :=
      hcounts hnid hncur
    have h3 : inSetDeps nodes id =
        nid.dependencies.filter fun d => (mapGet nodes d).isSome := by
      unfold inSetDeps
      rw [hnid]
      rfl
    have h4 : List.count cur (inSetDeps nodes id) =
        List.count cur nid.dependencies := by
      rw [h3]
      exact List.count_filter hcursome
    rw [h1, h4]
    exact h2
  have hallP : ∀ id, (mapGet nodes id).isSome = true → deg id = 0 →
      ∀ d ∈ inSetDeps nodes id, d ∈ P := by
    intro id hid hdeg d hd
    have h1 := hinv.degEq id hid
    rw [hdeg] at h1
    have hsub : List.Sublist
        ((inSetDeps nodes id).filter fun d => decide (d ∈ P))
        (inSetDeps nodes id) := List.filter_sublist _
    have hlen : ((inSetDeps nodes id).filter fun d => decide (d ∈ P)).length =
        (inSetDeps nodes id).length := by omega
    have heq := hsub.eq_of_length hlen
    have hall := List.filter_eq_self.mp heq
    exact of_decide_eq_true (hall d hd)
  have hcurP : cur ∉ P := hinv.disj cur hcurq
  have hdeg_cur : deg cur = 0 := (hinv.member cur hcursome).mp (Or.inl hcurq)
  have hcurcnt : List.count cur (ds.filter fun d => (mapGet nodes d).isSome) = 0 := by
    rw [htrans cur hcursome, List.count_eq_zero]
    intro hmem
    exact hcurP (hallP cur hcursome hdeg_cur cur hmem)
  have hcurds : cur ∉ ds := by
    intro hmem
    have h1 : cur ∈ ds.filter fun d => (mapGet nodes d).isSome :=
      List.mem_filter.mpr ⟨hmem, hcursome⟩
    have h2 := List.count_pos_iff.mpr h1
    omega
  have hPzero : ∀ d ∈ P, List.count d (ds.filter fun d => (mapGet nodes d).isSome) = 0 := by
    intro d hdP
    have hdid := hinv.pkeys d hdP
    rw [htrans d hdid, List.count_eq_zero]
    intro hmem
    have hdeg0 : deg d = 0 := (hinv.member d hdid).mp (Or.inr hdP)
    exact hcurP (hallP d hdid hdeg0 cur hmem)
  have hcnt : ∀ id, (mapGet nodes id).isSome = true →
      (List.count id (ds.filter fun d => (mapGet nodes d).isSome) : Int) ≤ deg id := by
    intro id hid
    have h1 := htrans id hid
    have h2 : List.count cur
        ((inSetDeps nodes id).filter fun d => !(decide (d ∈ P))) =
        List.count cur (inSetDeps nodes id) :=
      List.count_filter (by simp [hcurP])
    have h3 := List.count_le_length cur
      ((inSetDeps nodes id).filter fun d => !(decide (d ∈ P)))
    have h4 := length_filter_compl (fun d => decide (d ∈ P)) (inSetDeps nodes id)
    have h5 := hinv.degEq id hid
    omega
  have hq0 : ∀ id ∈ rest, deg id = 0 := fun id hid =>
    (hinv.member id (hinv.qkeys id (List.mem_cons_of_mem _ hid))).mp
      (Or.inl (List.mem_cons_of_mem _ hid))
  have hrestnd : rest.Nodup := (List.nodup_cons.mp hinv.qnodup).2
  have hcurrest : cur ∉ rest := (List.nodup_cons.mp hinv.qnodup).1
  obtain ⟨hQnd, hQmem, hQzero⟩ :=
    stepDeps_queue nodes cur ds lvl deg rest hcnt hrestnd hq0
  have hL := stepDeps_lvl nodes cur ds lvl deg rest hcurds
  have hD := stepDeps_deg nodes cur ds lvl deg rest
  have hfcur : (stepDeps nodes cur ds lvl deg rest).1 cur = lvl cur := by
    rw [hL cur, if_neg (fun hmem => by
      have := List.count_pos_iff.mpr hmem
      omega)]
  have hPfix : ∀ d ∈ P, (stepDeps nodes cur ds lvl deg rest).1 d = lvl d := by
    intro d hdP
    rw [hL d, if_neg (fun hmem => by
      have h1 := List.count_pos_iff.mpr hmem
      have h2 := hPzero d hdP
      omega)]
  refine ⟨?_, ?_, hQnd, ?_, ?_, ?_, ?_, ?_⟩
  · intro id hid
    rcases (hQmem id).mp hid with h | ⟨hpos, _⟩
    · exact hinv.qkeys id (List.mem_cons_of_mem _ h)
    · exact (List.mem_filter.mp (List.count_pos_iff.mp hpos)).2
  · intro id hid
    rcases List.mem_append.mp hid with h | h
    · exact hinv.pkeys id h
    · rw [List.mem_singleton] at h
      rw [h]
      exact hcursome
  · rw [List.nodup_append]
    refine ⟨hinv.pnodup, List.nodup_singleton cur, ?_⟩
    intro a ha hac
    rw [List.mem_singleton] at hac
    exact hcurP (hac ▸ ha)
  · intro id hid hP'
    rcases (hQmem id).mp hid with h | ⟨hpos, _⟩
    · rcases List.mem_append.mp hP' with h1 | h1
      · exact hinv.disj id (List.mem_cons_of_mem _ h) h1
      · rw [List.mem_singleton] at h1
        exact hcurrest (h1 ▸ h)
    · rcases List.mem_append.mp hP' with h1 | h1
      · have := hPzero id h1
        omega
      · rw [List.mem_singleton] at h1
        rw [h1] at hpos
        omega
  · intro id hid
    rw [hD id]
    have h5 := hinv.degEq id hid
    have h6 := length_filter_append_singleton P cur hcurP (inSetDeps nodes id)
    have h7 := htrans id hid
    omega
  · intro id hid
    constructor
    · rintro (hq | hp)
      · have := hQzero id hq
        rw [hD id]
        omega
      · rcases List.mem_append.mp hp with h | h
        · have h0 : deg id = 0 := (hinv.member id hid).mp (Or.inr h)
          have hz := hPzero id h
          rw [hD id]
          omega
        · rw [List.mem_singleton] at h
          subst h
          rw [hD id]
          omega
    · intro hz
      rw [hD id] at hz
      by_cases hpos : 0 < List.count id (ds.filter fun d => (mapGet nodes d).isSome)
      · exact Or.inl ((hQmem id).mpr (Or.inr ⟨hpos, by omega⟩))
      · have hdeg0 : deg id = 0 := by omega
        rcases (hinv.member id hid).mpr hdeg0 with h | h
        · rcases List.mem_cons.mp h with h1 | h1
          · exact Or.inr (List.mem_append.mpr (Or.inr (by
              rw [h1]
              exact List.mem_singleton.mpr rfl)))
          · exact Or.inl ((hQmem id).mpr (Or.inl h1))
        · exact Or.inr (List.mem_append.mpr (Or.inl h))
  · intro id hid
    rw [hL id]
    have hperm := filter_mem_append_perm P cur hcurP (inSetDeps nodes id)
    have hrhs : listMax0
        (((inSetDeps nodes id).filter fun d => decide (d ∈ P ++ [cur])).map
          fun d => (stepDeps nodes cur ds lvl deg rest).1 d + 1) =
        max (listMax0 (((inSetDeps nodes id).filter fun d => decide (d ∈ P)).map
          fun d => lvl d + 1))
          (listMax0 (List.replicate (List.count cur (inSetDeps nodes id))
            (lvl cur + 1))) := by
      rw [listMax0_perm
        (hperm.map fun d => (stepDeps nodes cur ds lvl deg rest).1 d + 1),
        List.map_append, listMax0_append]
      congr 1
      · have hcongr : (((inSetDeps nodes id).filter fun d => decide (d ∈ P)).map
            fun d => (stepDeps nodes cur ds lvl deg rest).1 d + 1) =
            (((inSetDeps nodes id).filter fun d => decide (d ∈ P)).map
              fun d => lvl d + 1) :=
          List.map_congr_left fun d hd => by
            have hdP : d ∈ P := of_decide_eq_true (List.mem_filter.mp hd).2
            rw [hPfix d hdP]
        rw [hcongr]
      · rw [List.filter_beq, List.map_replicate, hfcur]
    rw [hrhs]
    by_cases hmem : id ∈ ds.filter fun d => (mapGet nodes d).isSome
    · rw [if_pos hmem]
      have hn : 0 < List.count cur (inSetDeps nodes id) := by
        have h1 := List.count_pos_iff.mpr hmem
        have h2 := htrans id hid
        omega
      rw [listMax0_replicate _ _ (by omega), ← hinv.lvlEq id hid]
    · rw [if_neg hmem]
      have hn : List.count cur (inSetDeps nodes id) = 0 := by
        have h7 := htrans id hid
        have h8 : ¬ 0 < List.count id (ds.filter fun d => (mapGet nodes d).isSome) :=
          fun h => hmem (List.count_pos_iff.mp h)
        omega
      rw [hn, List.replicate_zero, show listMax0 [] = 0 from rfl, Nat.max_zero,
        ← hinv.lvlEq id hid]

theorem kahnLoop_cons (nodes : List (String × GraphNode)) (fuel : Nat)
    (cur : String) (rest : List String) (lvl : String → Nat)
    (deg : String → Int) (pops : List String) :
    kahnLoop nodes (fuel + 1) (cur :: rest) lvl deg pops =
      kahnLoop nodes fuel
        (stepDeps nodes cur
          (((mapGet nodes cur).map fun n => n.dependents).getD []) lvl deg
          rest).2.2
        (stepDeps nodes cur
          (((mapGet nodes cur).map fun n => n.dependents).getD []) lvl deg
          rest).1
        (stepDeps nodes cur
          (((mapGet nodes cur).map fun n => n.dependents).getD []) lvl deg
          rest).2.1
        (pops ++ [cur]) := rfl

theorem kahn_loop_inv (nodes : List (String × GraphNode))
    (hcounts : ∀ {c x : String} {nc nx : GraphNode},
      mapGet nodes c = some nc → mapGet nodes x = some nx →
      List.count c nx.dependents = List.count x nc.dependencies) :
    ∀ (fuel : Nat) (q : List String) (lvl : String → Nat) (deg : String → Int)
      (P : List String), KInv nodes q lvl deg P →
      nodes.length ≤ fuel + P.length →
      KInv nodes []
        (kahnLoop nodes fuel q lvl deg P).1
        (kahnLoop nodes fuel q lvl deg P).2.1
        (kahnLoop nodes fuel q lvl deg P).2.2 := by
  intro fuel
  induction fuel with
  | zero =>
      intro q lvl deg P hinv hbound
      have hsub : List.Subperm P (nodes.map Prod.fst) :=
        List.subperm_of_subset hinv.pnodup fun id hid =>
          mapGet_isSome_iff.mp (hinv.pkeys id hid)
      have hlen : (nodes.map Prod.fst).length ≤ P.length := by
        rw [List.length_map]
        omega
      have hperm := hsub.perm_of_length_le hlen
      have hq : q = [] := by
        rw [List.eq_nil_iff_forall_not_mem]
        intro id hid
        have h1 : id ∈ nodes.map Prod.fst :=
          mapGet_isSome_iff.mp (hinv.qkeys id hid)
        exact hinv.disj id hid (hperm.mem_iff.mpr h1)
      subst hq
      exact hinv
  | succ fuel ih =>
      intro q lvl deg P hinv hbound
      cases q with
      | nil => exact hinv
      | cons cur rest =>
          rw [kahnLoop_cons]
          refine ih _ _ _ _ (kahn_step nodes hcounts cur rest lvl deg P hinv) ?_
          rw [List.length_append, List.length_singleton]
          omega

theorem kahn_initial (nodes : List (String × GraphNode))
    (hnd : (nodes.map Prod.fst).Nodup) :
    KInv nodes
      ((nodes.map Prod.fst).filter fun id => initInDegree nodes id == 0)
      (fun _ => 0) (initInDegree nodes) [] := by
  have hfe : ∀ l : List String,
      (l.filter fun d => decide (d ∈ ([] : List String))) = [] := by
    intro l
    rw [List.filter_eq_nil_iff]
    intro a ha
    simp
  refine ⟨?_, ?_, ?_, List.nodup_nil, ?_, ?_, ?_, ?_⟩
  · intro id hid
    exact mapGet_isSome_iff.mpr (List.mem_of_mem_filter hid)
  · intro id hid
    cases hid
  · exact hnd.filter _
  · intro id hid h
    cases h
  · intro id hid
    rw [hfe, initInDegree_spec nodes hnd id]
    rfl
  · intro id hid
    constructor
    · rintro (h | h)
      · have := (List.mem_filter.mp h).2
        simpa using this
      · cases h
    · intro h
      left
      refine List.mem_filter.mpr ⟨mapGet_isSome_iff.mp hid, ?_⟩
      simp [h]
  · intro id hid
    rw [hfe]
    rfl

theorem calculateLayout_final (nodes : List (String × GraphNode))
    (hnd : (nodes.map Prod.fst).Nodup)
    (hcounts : ∀ {c x : String} {nc nx : GraphNode},
      mapGet nodes c = some nc → mapGet nodes x = some nx →
      List.count c nx.dependents = List.count x nc.dependencies) :
    KInv nodes [] (calculateLayout nodes).1 (calculateLayout nodes).2.1
      (calculateLayout nodes).2.2 :=
  kahn_loop_inv nodes hcounts nodes.length _ _ _ _ (kahn_initial nodes hnd)
    (by omega)

theorem kahn_popped_all (nodes : List (String × GraphNode))
    {lvl : String → Nat} {deg : String → Int} {P : List String}
    (hinv : KInv nodes [] lvl deg P) (hacyc : Acyclic nodes) :
    ∀ id, (mapGet nodes id).isSome = true → id ∈ P := by
  obtain ⟨r, hr⟩ := hacyc
  have key : ∀ (n : Nat) (id : String), (mapGet nodes id).isSome = true →
      r id < n → id ∈ P := by
    intro n
    induction n with
    | zero => exact fun id _ h => absurd h (Nat.not_lt_zero _)
    | succ n ih =>
        intro id hid hrn
        have hdeps : ∀ d ∈ inSetDeps nodes id, d ∈ P := by
          intro d hd
          have hdid : (mapGet nodes d).isSome = true := by
            unfold inSetDeps at hd
            exact (List.mem_filter.mp hd).2
          exact ih d hdid (by
            have := hr id hid d hd
            omega)
        have hfe : (inSetDeps nodes id).filter (fun d => decide (d ∈ P)) =
            inSetDeps nodes id :=
          List.filter_eq_self.mpr fun d hd => by
            simpa using hdeps d hd
        have hdeg : deg id = 0 := by
          rw [hinv.degEq id hid, hfe]
          omega
        rcases (hinv.member id hid).mpr hdeg with h | h
        · cases h
        · exact h
  exact fun id hid => key (r id + 1) id hid (by omega)

/-- C2: in the topological leveling `calculateLayout` performs on the graph
`buildGraph` produces, every node whose dependency list contains no node of
the set is assigned level 0, and when the graph is acyclic every other
node's final level equals 1 + the maximum final level among its in-set
dependencies. -/
theorem C2_calculateLayout_levels (tasks : List TaskInfo) (id : String)
    (hid : (mapGet (buildGraph tasks).1 id).isSome = true) :
    (inSetDeps (buildGraph tasks).1 id = [] →
      (calculateLayout (buildGraph tasks).1).1 id = 0) ∧
    (Acyclic (buildGraph tasks).1 → inSetDeps (buildGraph tasks).1 id ≠ [] →
      (calculateLayout (buildGraph tasks).1).1 id =
        1 + listMax0 ((inSetDeps (buildGraph tasks).1 id).map
          (calculateLayout (buildGraph tasks).1).1)) := by
  have hnd : ((buildGraph tasks).1.map Prod.fst).Nodup := by
    rw [buildGraph_keys]
    exact buildNodes_keys_nodup tasks
  have hinv := calculateLayout_final (buildGraph tasks).1 hnd
    (fun hc hx => buildGraph_dependents_count hc hx)
  constructor
  · intro hnil
    have h1 := hinv.lvlEq id hid
    rw [hnil] at h1
    exact h1
  · intro hacyc hne
    have hall := kahn_popped_all (buildGraph tasks).1 hinv hacyc
    have hfe : (inSetDeps (buildGraph tasks).1 id).filter
        (fun d => decide (d ∈ (calculateLayout (buildGraph tasks).1).2.2)) =
        inSetDeps (buildGraph tasks).1 id :=
      List.filter_eq_self.mpr fun d hd => by
        have hdid : (mapGet (buildGraph tasks).1 d).isSome = true := by
          unfold inSetDeps at hd
          exact (List.mem_filter.mp hd).2
        simpa using hall d hdid
    have hlv := hinv.lvlEq id hid
    rw [hfe] at hlv
    have hmm : ((inSetDeps (buildGraph tasks).1 id).map fun d =>
        (calculateLayout (buildGraph tasks).1).1 d + 1) =
        ((inSetDeps (buildGraph tasks).1 id).map
          (calculateLayout (buildGraph tasks).1).1).map (fun x => x + 1) := by
      rw [List.map_map]
      rfl
    rw [hmm, listMax0_map_succ _ (by
      intro h
      exact hne (List.map_eq_nil_iff.mp h))] at hlv
    omega

/-- C2 witness: the spec's T1..T4 scenario is acyclic; T4's level satisfies
the `1 + max` equation and the concrete levels are 0, 1, 1, 2. -/
theorem C2_calculateLayout_witness :
    (mapGet (buildGraph t4Tasks).1 "T4").isSome = true ∧
    Acyclic (buildGraph t4Tasks).1 ∧
    inSetDeps (buildGraph t4Tasks).1 "T4" ≠ [] ∧
    (calculateLayout (buildGraph t4Tasks).1).1 "T4" =
      1 + listMax0 ((inSetDeps (buildGraph t4Tasks).1 "T4").map
        (calculateLayout (buildGraph t4Tasks).1).1) ∧
    (calculateLayout (buildGraph t4Tasks).1).1 "T1" = 0 ∧
    (calculateLayout (buildGraph t4Tasks).1).1 "T2" = 1 ∧
    (calculateLayout (buildGraph t4Tasks).1).1 "T3" = 1 ∧
    (calculateLayout (buildGraph t4Tasks).1).1 "T4" = 2 := by
  have hacyc : Acyclic (buildGraph t4Tasks).1 := by
    refine ⟨fun id => if id = "T1" then 0 else if id = "T4" then 2 else 1, ?_⟩
    intro id hid d hd
    have hkey : id ∈ (buildGraph t4Tasks).1.map Prod.fst :=
      mapGet_isSome_iff.mp hid
    rw [buildGraph_keys,
      show (buildNodes t4Tasks).map Prod.fst = ["T1", "T2", "T3", "T4"]
        from rfl] at hkey
    simp only [List.mem_cons, List.not_mem_nil, or_false] at hkey
    rcases hkey with rfl | rfl | rfl | rfl
    · rw [show inSetDeps (buildGraph t4Tasks).1 "T1" = [] from rfl] at hd
      cases hd
    · rw [show inSetDeps (buildGraph t4Tasks).1 "T2" = ["T1"] from rfl] at hd
      simp only [List.mem_cons, List.not_mem_nil, or_false] at hd
      subst hd
      decide
    · rw [show inSetDeps (buildGraph t4Tasks).1 "T3" = ["T1"] from rfl] at hd
      simp only [List.mem_cons, List.not_mem_nil, or_false] at hd
      subst hd
      decide
    · rw [show inSetDeps (buildGraph t4Tasks).1 "T4" = ["T2", "T3"] from rfl] at hd
      simp only [List.mem_cons, List.not_mem_nil, or_false] at hd
      rcases hd with rfl | rfl
      · decide
      · decide
  exact ⟨by decide, hacyc, by decide,
    (C2_calculateLayout_levels t4Tasks "T4" (by decide)).2 hacyc (by decide),
    by decide, by decide, by decide, by decide⟩

/-- C3 (amended): after the queue empties, the nodes left with nonzero
residual in-degree are exactly the never-dequeued ones, and `calculateLayout`
produces no unresolved/cyclic report for them: each still carries the level
accumulated from its dequeued in-set dependencies (0 when none was dequeued)
and is positioned like any other node. -/
theorem C3_layout_amended (tasks : List TaskInfo) (id : String)
    (hid : (mapGet (buildGraph tasks).1 id).isSome = true) :
    (id ∈ (calculateLayout (buildGraph tasks).1).2.2 ↔
      (calculateLayout (buildGraph tasks).1).2.1 id = 0) ∧
    (calculateLayout (buildGraph tasks).1).1 id =
      listMax0 (((inSetDeps (buildGraph tasks).1 id).filter fun d =>
        decide (d ∈ (calculateLayout (buildGraph tasks).1).2.2)).map
          fun d => (calculateLayout (buildGraph tasks).1).1 d + 1) := by
  have hnd : ((buildGraph tasks).1.map Prod.fst).Nodup := by
    rw [buildGraph_keys]
    exact buildNodes_keys_nodup tasks
  have hinv := calculateLayout_final (buildGraph tasks).1 hnd
    (fun hc hx => buildGraph_dependents_count hc hx)
  constructor
  · have h1 := hinv.member id hid
    simpa using h1
  · exact hinv.lvlEq id hid

/-- C3 witness: on the two-task cycle, node "A" is a node of the graph, is
not among the dequeued ids (matching its residual in-degree 1), and its level
is the one computed from its dequeued dependencies — none, hence 0. -/
theorem C3_layout_amended_witness :
    (mapGet (buildGraph cyclicTasks).1 "A").isSome = true ∧
    (("A" ∈ (calculateLayout (buildGraph cyclicTasks).1).2.2 ↔
      (calculateLayout (buildGraph cyclicTasks).1).2.1 "A" = 0) ∧
     (calculateLayout (buildGraph cyclicTasks).1).1 "A" =
       listMax0 (((inSetDeps (buildGraph cyclicTasks).1 "A").filter fun d =>
         decide (d ∈ (calculateLayout (buildGraph cyclicTasks).1).2.2)).map
           fun d => (calculateLayout (buildGraph cyclicTasks).1).1 d + 1)) :=
  ⟨by decide, C3_layout_amended cyclicTasks "A" (by decide)⟩

/-! ## Dependency chains -/

theorem mem_inSetDeps_src {nodes : List (String × GraphNode)} {x y : String}
    (h : y ∈ inSetDeps nodes x) : (mapGet nodes x).isSome = true := by
  unfold inSetDeps at h
  cases hx : mapGet nodes x with
  | none =>
      rw [hx] at h
      simp at h
  | some n => rfl

theorem mem_inSetDeps_tgt {nodes : List (String × GraphNode)} {x y : String}
    (h : y ∈ inSetDeps nodes x) : (mapGet nodes y).isSome = true := by
  unfold inSetDeps at h
  exact (List.mem_filter.mp h).2

theorem chain_keys {nodes : List (String × GraphNode)} :
    ∀ {c}, IsDepChain nodes c → ∀ z ∈ c, (mapGet nodes z).isSome = true := by
  intro c
  induction c with
  | nil => intro _ z hz; cases hz
  | cons x c ih =>
      intro hc z hz
      cases c with
      | nil =>
          have hx : z = x := List.mem_singleton.mp hz
          subst hx
          exact hc
      | cons y rest =>
          obtain ⟨hy, hrest⟩ := hc
          rcases List.mem_cons.mp hz with h1 | h1
          · subst h1
            exact mem_inSetDeps_src hy
          · exact ih hrest z h1

theorem chain_pairwise {nodes : List (String × GraphNode)} (r : String → Nat)
    (hr : ∀ id, (mapGet nodes id).isSome = true →
      ∀ d ∈ inSetDeps nodes id, r d < r id) :
    ∀ {c}, IsDepChain nodes c → List.Pairwise (fun a b => r b < r a) c := by
  intro c
  induction c with
  | nil => intro _; exact List.Pairwise.nil
  | cons x c ih =>
      intro hc
      cases c with
      | nil => exact List.pairwise_singleton _ _
      | cons y rest =>
          obtain ⟨hy, hrest⟩ := hc
          have hp := ih hrest
          have hxy : r y < r x := hr x (mem_inSetDeps_src hy) y hy
          refine List.Pairwise.cons ?_ hp
          intro z hz
          rcases List.mem_cons.mp hz with h1 | h1
          · subst h1
            exact hxy
          · have := (List.pairwise_cons.mp hp).1 z h1
            omega

theorem chain_nodup {nodes : List (String × GraphNode)}
    (hacyc : Acyclic nodes) {c} (hc : IsDepChain nodes c) : c.Nodup := by
  obtain ⟨r, hr⟩ := hacyc
  exact (chain_pairwise r hr hc).imp fun {a b} h he => by
    subst he
    omega

theorem chain_length_le {nodes : List (String × GraphNode)}
    (hacyc : Acyclic nodes) {c} (hc : IsDepChain nodes c) :
    c.length ≤ nodes.length := by
  have hnd := chain_nodup hacyc hc
  have hsub : c ⊆ nodes.map Prod.fst := fun z hz =>
    mapGet_isSome_iff.mp (chain_keys hc z hz)
  have h1 := (List.subperm_of_subset hnd hsub).length_le
  rw [List.length_map] at h1
  exact h1

theorem traceLongestPath_some (nodes : List (String × GraphNode)) (fuel : Nat)
    (nodeId : String) (currentPath : List String) (node : GraphNode)
    (h : mapGet nodes nodeId = some node) :
    traceLongestPath nodes (fuel + 1) nodeId currentPath =
      if node.dependencies.isEmpty then some (currentPath ++ [nodeId])
      else node.dependencies.foldl
        (traceStep nodes fuel (currentPath ++ [nodeId]))
        (some (currentPath ++ [nodeId])) := by
  unfold traceLongestPath
  rw [h]
  rfl

theorem traceStep_some (nodes : List (String × GraphNode)) (fuel : Nat)
    (newPath best : List String) (d : String) :
    traceStep nodes fuel newPath (some best) d =
      if (mapGet nodes d).isSome then
        match traceLongestPath nodes fuel d newPath with
        | none => none
        | some sub => some (if sub.length > best.length then sub else best)
      else some best := rfl

theorem findCriticalPathList_eq (nodes : List (String × GraphNode)) :
    findCriticalPathList nodes =
      (nodes.filter fun p => p.2.dependents.isEmpty).foldl (cpStep nodes)
        (some []) := rfl

theorem trace_correct (nodes : List (String × GraphNode)) :
    ∀ (fuel : Nat) (id : String) (path : List String),
      (mapGet nodes id).isSome = true →
      (∀ c, IsDepChain nodes (id :: c) → c.length + 1 ≤ fuel) →
      ∃ t, traceLongestPath nodes fuel id path = some (path ++ id :: t) ∧
        IsDepChain nodes (id :: t) ∧
        ∀ c, IsDepChain nodes (id :: c) → c.length ≤ t.length := by
  intro fuel
  induction fuel with
  | zero =>
      intro id path hid hch
      have h1 : IsDepChain nodes [id] := hid
      exact absurd (hch [] h1) (by omega)
  | succ fuel ih =>
      intro id path hid hch
      obtain ⟨node, hnode⟩ := Option.isSome_iff_exists.mp hid
      rw [traceLongestPath_some nodes fuel id path node hnode]
      have hisd : inSetDeps nodes id =
          node.dependencies.filter fun d => (mapGet nodes d).isSome := by
        unfold inSetDeps
        rw [hnode]
        rfl
      by_cases hemp : node.dependencies.isEmpty = true
      · rw [if_pos hemp]
        refine ⟨[], rfl, hid, ?_⟩
        intro c hc
        cases c with
        | nil => simp
        | cons d c' =>
            obtain ⟨hd, _⟩ := hc
            rw [hisd, List.isEmpty_iff.mp hemp] at hd
            cases hd
      · rw [if_neg hemp]
        have hfold : ∀ (ds : List String), (∀ d ∈ ds, d ∈ node.dependencies) →
            ∀ (tb : List String), IsDepChain nodes (id :: tb) →
            ∃ tr, ds.foldl (traceStep nodes fuel (path ++ [id]))
                (some (path ++ id :: tb)) = some (path ++ id :: tr) ∧
              IsDepChain nodes (id :: tr) ∧ tb.length ≤ tr.length ∧
              ∀ d ∈ ds, (mapGet nodes d).isSome = true →
                ∀ c, IsDepChain nodes (d :: c) → c.length + 1 ≤ tr.length := by
          intro ds
          induction ds with
          | nil =>
              intro _ tb htb
              exact ⟨tb, rfl, htb, Nat.le_refl _,
                fun d hd => absurd hd (List.not_mem_nil d)⟩
          | cons d ds ihds =>
              intro hds tb htb
              rw [List.foldl_cons]
              by_cases hdid : (mapGet nodes d).isSome = true
              · have hdin : d ∈ inSetDeps nodes id := by
                  rw [hisd]
                  exact List.mem_filter.mpr
                    ⟨hds d (List.mem_cons_self _ _), hdid⟩
                have hchd : ∀ c, IsDepChain nodes (d :: c) →
                    c.length + 1 ≤ fuel := by
                  intro c hc
                  have := hch (d :: c) ⟨hdin, hc⟩
                  simp only [List.length_cons] at this
                  omega
                obtain ⟨td, htd, htdch, htdmax⟩ := ih d (path ++ [id]) hdid hchd
                have hpa : (path ++ [id]) ++ d :: td = path ++ id :: d :: td := by
                  rw [List.append_assoc]
                  rfl
                have hstep : traceStep nodes fuel (path ++ [id])
                    (some (path ++ id :: tb)) d =
                    some (if ((path ++ [id]) ++ d :: td).length >
                        (path ++ id :: tb).length
                      then (path ++ [id]) ++ d :: td
                      else path ++ id :: tb) := by
                  rw [traceStep_some, if_pos hdid, htd]
                rw [hstep]
                have hlsub : ((path ++ [id]) ++ d :: td).length =
                    path.length + td.length + 2 := by
                  simp [List.length_append]
                  omega
                have hlbest : (path ++ id :: tb).length =
                    path.length + tb.length + 1 := by
                  simp [List.length_append]
                  omega
                by_cases hgt : ((path ++ [id]) ++ d :: td).length >
                    (path ++ id :: tb).length
                · rw [if_pos hgt, hpa]
                  obtain ⟨tr, htr, htrch, htrle, htrmax⟩ :=
                    ihds (fun x hx => hds x (List.mem_cons_of_mem _ hx))
                      (d :: td) ⟨hdin, htdch⟩
                  refine ⟨tr, htr, htrch, ?_, ?_⟩
                  · simp only [List.length_cons] at htrle
                    omega
                  · intro d' hd' hd'some c hc
                    rcases List.mem_cons.mp hd' with h1 | h1
                    · subst h1
                      have h2 := htdmax c hc
                      simp only [List.length_cons] at htrle
                      omega
                    · exact htrmax d' h1 hd'some c hc
                · rw [if_neg hgt]
                  obtain ⟨tr, htr, htrch, htrle, htrmax⟩ :=
                    ihds (fun x hx => hds x (List.mem_cons_of_mem _ hx)) tb htb
                  refine ⟨tr, htr, htrch, htrle, ?_⟩
                  intro d' hd' hd'some c hc
                  rcases List.mem_cons.mp hd' with h1 | h1
                  · subst h1
                    have h2 := htdmax c hc
                    omega
                  · exact htrmax d' h1 hd'some c hc
              · have hstep : traceStep nodes fuel (path ++ [id])
                    (some (path ++ id :: tb)) d = some (path ++ id :: tb) := by
                  rw [traceStep_some, if_neg hdid]
                rw [hstep]
                obtain ⟨tr, htr, htrch, htrle, htrmax⟩ :=
                  ihds (fun x hx => hds x (List.mem_cons_of_mem _ hx)) tb htb
                refine ⟨tr, htr, htrch, htrle, ?_⟩
                intro d' hd' hd'some c hc
                rcases List.mem_cons.mp hd' with h1 | h1
                · subst h1
                  exact absurd hd'some hdid
                · exact htrmax d' h1 hd'some c hc
        obtain ⟨tr, htr, htrch, _, htrmax⟩ :=
          hfold node.dependencies (fun d hd => hd) [] hid
        refine ⟨tr, htr, htrch, ?_⟩
        intro c hc
        cases c with
        | nil => simp
        | cons d c' =>
            obtain ⟨hd, hc'⟩ := hc
            have hd2 := hd
            rw [hisd] at hd2
            obtain ⟨hdmem, hdsome⟩ := List.mem_filter.mp hd2
            have := htrmax d hdmem hdsome c' hc'
            simp only [List.length_cons]
            omega

theorem findCriticalPathList_spec (nodes : List (String × GraphNode))
    (hnd : (nodes.map Prod.fst).Nodup) (hacyc : Acyclic nodes) :
    ∃ cp, findCriticalPathList nodes = some cp ∧
      (cp = [] ∨ (IsDepChain nodes cp ∧ IsSinkId nodes (cp.headD ""))) ∧
      ∀ c, IsDepChain nodes c → IsSinkId nodes (c.headD "") →
        c.length ≤ cp.length := by
  have hfold : ∀ (ds : List (String × GraphNode)),
      (∀ p ∈ ds, p ∈ nodes ∧ p.2.dependents = []) →
      ∀ best, (best = [] ∨ (IsDepChain nodes best ∧
        IsSinkId nodes (best.headD ""))) →
      ∃ fin, ds.foldl (cpStep nodes) (some best) = some fin ∧
        (fin = [] ∨ (IsDepChain nodes fin ∧ IsSinkId nodes (fin.headD ""))) ∧
        best.length ≤ fin.length ∧
        ∀ p ∈ ds, ∀ c, IsDepChain nodes (p.1 :: c) →
          c.length + 1 ≤ fin.length := by
    intro ds
    induction ds with
    | nil =>
        intro _ best hbest
        exact ⟨best, rfl, hbest, Nat.le_refl _,
          fun p hp => absurd hp (List.not_mem_nil p)⟩
    | cons p ds ihds =>
        intro hds best hbest
        obtain ⟨hpn, hpd⟩ := hds p (List.mem_cons_self _ _)
        obtain ⟨a, b⟩ := p
        have hpget : mapGet nodes a = some b := mapGet_of_mem_nodup hnd hpn
        have hpsome : (mapGet nodes a).isSome = true := by
          rw [hpget]
          rfl
        have hpchains : ∀ c, IsDepChain nodes (a :: c) →
            c.length + 1 ≤ nodes.length + 1 := by
          intro c hc
          have h1 := chain_length_le hacyc hc
          simp only [List.length_cons] at h1
          omega
        obtain ⟨t, htr0, hch, hmax⟩ :=
          trace_correct nodes (nodes.length + 1) a [] hpsome hpchains
        have htr : traceLongestPath nodes (nodes.length + 1) a [] =
            some (a :: t) := by
          rw [htr0]
          rfl
        rw [List.foldl_cons]
        have hstep : cpStep nodes (some best) (a, b) =
            some (if (a :: t).length > best.length then a :: t else best) := by
          show (match traceLongestPath nodes (nodes.length + 1) a [] with
                | none => none
                | some path =>
                    some (if path.length > best.length then path else best)) = _
          rw [htr]
        rw [hstep]
        by_cases hgt : (a :: t).length > best.length
        · rw [if_pos hgt]
          have hsink : IsSinkId nodes ((a :: t).headD "") := ⟨b, hpget, hpd⟩
          obtain ⟨fin, hfin, hfinshape, hfinle, hfinmax⟩ :=
            ihds (fun x hx => hds x (List.mem_cons_of_mem _ hx)) (a :: t)
              (Or.inr ⟨hch, hsink⟩)
          refine ⟨fin, hfin, hfinshape, ?_, ?_⟩
          · simp only [List.length_cons] at hfinle hgt
            omega
          · intro p2 hp2 c hc
            rcases List.mem_cons.mp hp2 with h1 | h1
            · subst h1
              have h2 := hmax c hc
              simp only [List.length_cons] at hfinle
              omega
            · exact hfinmax p2 h1 c hc
        · rw [if_neg hgt]
          obtain ⟨fin, hfin, hfinshape, hfinle, hfinmax⟩ :=
            ihds (fun x hx => hds x (List.mem_cons_of_mem _ hx)) best hbest
          refine ⟨fin, hfin, hfinshape, hfinle, ?_⟩
          intro p2 hp2 c hc
          rcases List.mem_cons.mp hp2 with h1 | h1
          · subst h1
            have h2 := hmax c hc
            simp only [List.length_cons, Nat.not_lt] at hgt
            omega
          · exact hfinmax p2 h1 c hc
  obtain ⟨fin, hfin, hshape, _, hmax⟩ :=
    hfold (nodes.filter fun p => p.2.dependents.isEmpty)
      (fun p hp => ⟨List.mem_of_mem_filter hp,
        List.isEmpty_iff.mp (List.mem_filter.mp hp).2⟩)
      [] (Or.inl rfl)
  refine ⟨fin, ?_, hshape, ?_⟩
  · rw [findCriticalPathList_eq]
    exact hfin
  · intro c hc hsink
    cases c with
    | nil => simp
    | cons s c' =>
        obtain ⟨ns, hns, hnsdep⟩ := hsink
        have hmem : (s, ns) ∈ nodes.filter fun p => p.2.dependents.isEmpty := by
          refine List.mem_filter.mpr ⟨mapGet_eq_some_mem hns, ?_⟩
          simp [hnsdep]
        have := hmax (s, ns) hmem c' hc
        simp only [List.length_cons]
        omega

theorem buildGraph_isCritical_false {tasks : List TaskInfo} {x : String}
    {n : GraphNode} (h : mapGet (buildGraph tasks).1 x = some n) :
    n.isCritical = false := by
  rw [buildGraph_get] at h
  obtain ⟨n0, h0, he⟩ := Option.map_eq_some'.mp h
  have h1 := (buildNodes_get_fields h0).2.2.2.1
  rw [← he]
  exact h1

/-- C5: on an acyclic graph, `findCriticalPath` succeeds; its winning chain
is a dependency chain starting at a sink (a node with no dependents) of
maximum node count among all such chains, a node is flagged critical exactly
when its id lies on that chain, and an edge is flagged critical exactly when
both its endpoints lie on it. -/
theorem C5_findCriticalPath (tasks : List TaskInfo)
    (hacyc : Acyclic (buildGraph tasks).1) :
    ∃ res, findCriticalPath (buildGraph tasks).1 (buildGraph tasks).2 =
        some res ∧
      (res.2.2 = [] ∨ (IsDepChain (buildGraph tasks).1 res.2.2 ∧
        IsSinkId (buildGraph tasks).1 (res.2.2.headD ""))) ∧
      (∀ c, IsDepChain (buildGraph tasks).1 c →
        IsSinkId (buildGraph tasks).1 (c.headD "") →
        c.length ≤ res.2.2.length) ∧
      (∀ p ∈ res.1, p.2.isCritical = true ↔ p.1 ∈ res.2.2) ∧
      (∀ e ∈ res.2.1, e.isCritical = true ↔
        e.src ∈ res.2.2 ∧ e.tgt ∈ res.2.2) := by
  have hnd : ((buildGraph tasks).1.map Prod.fst).Nodup := by
    rw [buildGraph_keys]
    exact buildNodes_keys_nodup tasks
  obtain ⟨cp, hcp, hshape, hmax⟩ :=
    findCriticalPathList_spec (buildGraph tasks).1 hnd hacyc
  refine ⟨(markCriticalNodes (buildGraph tasks).1 cp,
      markCriticalEdges (buildGraph tasks).2 cp, cp), ?_, hshape, hmax, ?_, ?_⟩
  · unfold findCriticalPath
    rw [hcp]
    rfl
  · intro p' hp'
    unfold markCriticalNodes at hp'
    obtain ⟨p, hp, he⟩ := List.mem_map.mp hp'
    obtain ⟨a, b⟩ := p
    have hget : mapGet (buildGraph tasks).1 a = some b :=
      mapGet_of_mem_nodup hnd hp
    have hflag : b.isCritical = false := buildGraph_isCritical_false hget
    by_cases hc : cp.contains a = true
    · rw [if_pos hc] at he
      rw [← he]
      simp only [true_iff]
      exact List.elem_iff.mp hc
    · rw [if_neg hc] at he
      rw [← he]
      simp only [hflag, Bool.false_eq_true, false_iff]
      intro hmem
      exact hc (List.elem_iff.mpr hmem)
  · intro e' he'
    unfold markCriticalEdges at he'
    obtain ⟨e, hein, he⟩ := List.mem_map.mp he'
    have hflag : e.isCritical = false := buildGraph_edges_flag tasks e hein
    by_cases hc : cp.contains e.src = true ∧ cp.contains e.tgt = true
    · rw [if_pos hc] at he
      rw [← he]
      simp only [true_iff]
      exact ⟨List.elem_iff.mp hc.1, List.elem_iff.mp hc.2⟩
    · rw [if_neg hc] at he
      rw [← he]
      simp only [hflag, Bool.false_eq_true, false_iff]
      intro hmem
      exact hc ⟨List.elem_iff.mpr hmem.1, List.elem_iff.mpr hmem.2⟩

/-- The four-task scenario graph is acyclic. -/
theorem t4Tasks_acyclic : Acyclic (buildGraph t4Tasks).1 := by
  refine ⟨fun id => if id = "T1" then 0 else if id = "T4" then 2 else 1, ?_⟩
  intro id hid d hd
  have hkey : id ∈ (buildGraph t4Tasks).1.map Prod.fst :=
    mapGet_isSome_iff.mp hid
  rw [buildGraph_keys,
    show (buildNodes t4Tasks).map Prod.fst = ["T1", "T2", "T3", "T4"]
      from rfl] at hkey
  simp only [List.mem_cons, List.not_mem_nil, or_false] at hkey
  rcases hkey with rfl | rfl | rfl | rfl
  · rw [show inSetDeps (buildGraph t4Tasks).1 "T1" = [] from rfl] at hd
    cases hd
  · rw [show inSetDeps (buildGraph t4Tasks).1 "T2" = ["T1"] from rfl] at hd
    simp only [List.mem_cons, List.not_mem_nil, or_false] at hd
    subst hd
    decide
  · rw [show inSetDeps (buildGraph t4Tasks).1 "T3" = ["T1"] from rfl] at hd
    simp only [List.mem_cons, List.not_mem_nil, or_false] at hd
    subst hd
    decide
  · rw [show inSetDeps (buildGraph t4Tasks).1 "T4" = ["T2", "T3"] from rfl] at hd
    simp only [List.mem_cons, List.not_mem_nil, or_false] at hd
    rcases hd with rfl | rfl
    · decide
    · decide

/-- C5 witness: on the acyclic T1..T4 scenario the winning chain is
`["T4", "T2", "T1"]` (traced sink-first), of maximal node count 3. -/
theorem C5_findCriticalPath_witness :
    Acyclic (buildGraph t4Tasks).1 ∧
    (∃ res, findCriticalPath (buildGraph t4Tasks).1 (buildGraph t4Tasks).2 =
        some res ∧
      (res.2.2 = [] ∨ (IsDepChain (buildGraph t4Tasks).1 res.2.2 ∧
        IsSinkId (buildGraph t4Tasks).1 (res.2.2.headD ""))) ∧
      (∀ c, IsDepChain (buildGraph t4Tasks).1 c →
        IsSinkId (buildGraph t4Tasks).1 (c.headD "") →
        c.length ≤ res.2.2.length) ∧
      (∀ p ∈ res.1, p.2.isCritical = true ↔ p.1 ∈ res.2.2) ∧
      (∀ e ∈ res.2.1, e.isCritical = true ↔
        e.src ∈ res.2.2 ∧ e.tgt ∈ res.2.2)) ∧
    findCriticalPathList (buildGraph t4Tasks).1 = some ["T4", "T2", "T1"] :=
  ⟨t4Tasks_acyclic, C5_findCriticalPath t4Tasks t4Tasks_acyclic, by decide⟩

/-! ## `createDependency` rejects reachable targets -/

theorem checkDeps_succ (cache : List (String × Entity)) (toId : String)
    (fuel : Nat) (x : String) (V : List String) :
    checkDependencies cache toId (fuel + 1) x V =
      if V.contains x then some (false, V)
      else if x = toId then some (true, V)
      else (depsOf cache x).foldl (checkStep cache toId fuel)
        (some (false, V ++ [x])) := rfl

theorem checkFold_none (cache : List (String × Entity)) (toId : String)
    (fuel : Nat) : ∀ ds : List String,
    ds.foldl (checkStep cache toId fuel) none = none := by
  intro ds
  induction ds with
  | nil => rfl
  | cons d ds ih => exact ih

theorem checkFold_true (cache : List (String × Entity)) (toId : String)
    (fuel : Nat) : ∀ (ds : List String) (v : List String),
    ds.foldl (checkStep cache toId fuel) (some (true, v)) = some (true, v) := by
  intro ds
  induction ds with
  | nil => intro v; rfl
  | cons d ds ih => intro v; exact ih v

theorem checkFold_false (cache : List (String × Entity)) (toId : String)
    (fuel : Nat)
    (hP : ∀ x V V', toId ∉ V →
      checkDependencies cache toId fuel x V = some (false, V') →
      toId ∉ V' ∧ V ⊆ V' ∧ x ∈ V' ∧
      ∀ z ∈ V', z ∉ V → ∀ d ∈ depsOf cache z, d ∈ V') :
    ∀ (ds : List String) (v V' : List String), toId ∉ v →
      ds.foldl (checkStep cache toId fuel) (some (false, v)) =
        some (false, V') →
      toId ∉ V' ∧ v ⊆ V' ∧ (∀ d ∈ ds, d ∈ V') ∧
      ∀ z ∈ V', z ∉ v → ∀ d ∈ depsOf cache z, d ∈ V' := by
  intro ds
  induction ds with
  | nil =>
      intro v V' htoid h
      rw [List.foldl_nil] at h
      injection h with h1
      injection h1 with h2 h3
      subst h3
      refine ⟨htoid, fun z hz => hz, fun d hd => absurd hd (List.not_mem_nil d),
        ?_⟩
      intro z hz hnz
      exact absurd hz hnz
  | cons d ds ih =>
      intro v V' htoid h
      rw [List.foldl_cons,
        show checkStep cache toId fuel (some (false, v)) d =
          checkDependencies cache toId fuel d v from rfl] at h
      cases hc : checkDependencies cache toId fuel d v with
      | none =>
          rw [hc, checkFold_none] at h
          cases h
      | some bv =>
          obtain ⟨b, v1⟩ := bv
          cases b with
          | true =>
              rw [hc, checkFold_true] at h
              injection h with h1
              injection h1 with h2 _
              cases h2
          | false =>
              rw [hc] at h
              obtain ⟨ht1, hsub1, hd1, hexp1⟩ := hP d v v1 htoid hc
              obtain ⟨ht2, hsub2, hds2, hexp2⟩ := ih v1 V' ht1 h
              refine ⟨ht2, fun z hz => hsub2 (hsub1 hz), ?_, ?_⟩
              · intro d2 hd2
                rcases List.mem_cons.mp hd2 with h1 | h1
                · subst h1
                  exact hsub2 hd1
                · exact hds2 d2 h1
              · intro z hz hznv d2 hd2
                by_cases hz1 : z ∈ v1
                · exact hsub2 (hexp1 z hz1 hznv d2 hd2)
                · exact hexp2 z hz hz1 d2 hd2

theorem checkDeps_false_invariant (cache : List (String × Entity))
    (toId : String) :
    ∀ (fuel : Nat) (x : String) (V V' : List String), toId ∉ V →
      checkDependencies cache toId fuel x V = some (false, V') →
      toId ∉ V' ∧ V ⊆ V' ∧ x ∈ V' ∧
      ∀ z ∈ V', z ∉ V → ∀ d ∈ depsOf cache z, d ∈ V' := by
  intro fuel
  induction fuel with
  | zero =>
      intro x V V' _ h
      exact Option.noConfusion h
  | succ fuel ih =>
      intro x V V' htoid h
      rw [checkDeps_succ] at h
      by_cases hcont : V.contains x = true
      · rw [if_pos hcont] at h
        injection h with h1
        injection h1 with h2 h3
        subst h3
        refine ⟨htoid, fun z hz => hz, List.elem_iff.mp hcont, ?_⟩
        intro z hz hnz
        exact absurd hz hnz
      · rw [if_neg hcont] at h
        by_cases hxe : x = toId
        · rw [if_pos hxe] at h
          injection h with h1
          injection h1 with h2 _
          cases h2
        · rw [if_neg hxe] at h
          have htoid2 : toId ∉ V ++ [x] := by
            intro hmem
            rcases List.mem_append.mp hmem with h1 | h1
            · exact htoid h1
            · rw [List.mem_singleton] at h1
              exact hxe h1.symm
          obtain ⟨ht, hsub, hds, hexp⟩ := checkFold_false cache toId fuel ih
            (depsOf cache x) (V ++ [x]) V' htoid2 h
          have hxin : x ∈ V' :=
            hsub (List.mem_append.mpr (Or.inr (List.mem_singleton.mpr rfl)))
          refine ⟨ht, fun z hz => hsub (List.mem_append.mpr (Or.inl hz)), hxin,
            ?_⟩
          intro z hz hznV d hd
          by_cases hzx : z = x
          · subst hzx
            exact hds d hd
          · have hznVx : z ∉ V ++ [x] := by
              intro hmem
              rcases List.mem_append.mp hmem with h1 | h1
              · exact hznV h1
              · rw [List.mem_singleton] at h1
                exact hzx h1
            exact hexp z hz hznVx d hd

theorem reaches_not_escaped {cache : List (String × Entity)} {toId : String}
    {V' : List String}
    (hcl : ∀ z ∈ V', ∀ d ∈ depsOf cache z, d ∈ V') (ht : toId ∉ V') :
    ∀ x, Reaches cache toId x → x ∉ V' := by
  intro x hr
  induction hr with
  | here => exact ht
  | step x d hd hr ih => exact fun hx => ih (hcl x hx d hd)

/-- C1: whenever `toId` is already reachable from `fromId` through the
existing dependency chains — including the self-loop `fromId = toId` —
`createDependency` rejects: it issues no `updateEntity` request, so no
document is written, no rebuild is triggered, and the index snapshot stays
unchanged. -/
theorem C1_createDependency_rejects (cache : List (String × Entity))
    (fromId toId : String) (hreach : Reaches cache toId fromId) :
    createDependency cache fromId toId = none := by
  have hw : (wouldCreateCircularDependency cache fromId toId).getD true =
      true := by
    unfold wouldCreateCircularDependency
    cases hcd : checkDependencies cache toId
        ((depUniverse cache fromId).length + 1) fromId [] with
    | none => rfl
    | some bv =>
        obtain ⟨b, v⟩ := bv
        cases b with
        | true => rfl
        | false =>
            exfalso
            obtain ⟨ht, _, hxin, hexp⟩ := checkDeps_false_invariant cache toId
              ((depUniverse cache fromId).length + 1) fromId [] v (by simp) hcd
            have hcl : ∀ z ∈ v, ∀ d ∈ depsOf cache z, d ∈ v := by
              intro z hz d hd
              exact hexp z hz (by simp) d hd
            exact reaches_not_escaped hcl ht fromId hreach hxin
  cases hget : getEntity cache toId with
  | none => simp [createDependency, hget]
  | some task => simp [createDependency, hget, hw]

/-- C1 witness: the self-loop `createDependency "T" "T"` on a one-task index
is rejected even though the target exists and is a task. -/
theorem C1_createDependency_witness :
    Reaches c1Cache "T" "T" ∧
    createDependency c1Cache "T" "T" = none ∧
    (getEntity c1Cache "T").isSome = true :=
  ⟨Reaches.here, C1_createDependency_rejects c1Cache "T" "T" Reaches.here,
    by decide⟩

/-! ## Decimal numerals are injective -/

theorem string_data_inj {a b : String} (h : a.data = b.data) : a = b := by
  cases a
  cases b
  exact congrArg String.mk h

theorem natToChars_ne_nil (n : Nat) : natToChars n ≠ [] := by
  rw [natToChars]
  by_cases h : n < 10
  · rw [if_pos h]
    simp
  · rw [if_neg h]
    simp

theorem digitChar_inj : ∀ k, k < 10 → ∀ l, l < 10 →
    Nat.digitChar k = Nat.digitChar l → k = l := by decide

theorem natToChars_inj : ∀ n m, natToChars n = natToChars m → n = m := by
  intro n
  induction n using Nat.strong_induction_on with
  | _ n ih =>
      intro m h
      have hunf : ∀ k : Nat, natToChars k =
          if k < 10 then [Nat.digitChar k]
          else natToChars (k / 10) ++ [Nat.digitChar (k % 10)] := fun k => by
        rw [natToChars]
      rw [hunf n, hunf m] at h
      by_cases hn : n < 10
      · rw [if_pos hn] at h
        by_cases hm : m < 10
        · rw [if_pos hm] at h
          injection h with h1 _
          exact digitChar_inj n hn m hm h1
        · rw [if_neg hm] at h
          obtain ⟨c, cs, hc⟩ :=
            List.exists_cons_of_ne_nil (natToChars_ne_nil (m / 10))
          rw [hc, List.cons_append] at h
          injection h with _ h2
          simp at h2
      · rw [if_neg hn] at h
        by_cases hm : m < 10
        · rw [if_pos hm] at h
          obtain ⟨c, cs, hc⟩ :=
            List.exists_cons_of_ne_nil (natToChars_ne_nil (n / 10))
          rw [hc, List.cons_append] at h
          injection h with _ h2
          simp at h2
        · rw [if_neg hm] at h
          have h2 := congrArg List.reverse h
          rw [List.reverse_append, List.reverse_append] at h2
          simp only [List.reverse_cons, List.reverse_nil, List.nil_append,
            List.singleton_append, List.cons.injEq] at h2
          obtain ⟨h3, h4⟩ := h2
          have h5 : n % 10 = m % 10 :=
            digitChar_inj _ (Nat.mod_lt _ (by omega)) _
              (Nat.mod_lt _ (by omega)) h3
          have h6 : natToChars (n / 10) = natToChars (m / 10) := by
            have h7 := congrArg List.reverse h4
            simpa using h7
          have h8 : n / 10 = m / 10 :=
            ih (n / 10) (Nat.div_lt_self (by omega) (by omega)) _ h6
          omega

theorem toDigitsCore_eq : ∀ (fuel n : Nat) (ds : List Char), n < fuel →
    Nat.toDigitsCore 10 fuel n ds = natToChars n ++ ds := by
  intro fuel
  induction fuel with
  | zero => intro n ds h; exact absurd h (Nat.not_lt_zero n)
  | succ fuel ih =>
      intro n ds h
      rw [show Nat.toDigitsCore 10 (fuel + 1) n ds =
        (if n / 10 = 0 then Nat.digitChar (n % 10) :: ds
         else Nat.toDigitsCore 10 fuel (n / 10)
           (Nat.digitChar (n % 10) :: ds)) from rfl]
      by_cases h0 : n / 10 = 0
      · rw [if_pos h0, natToChars, if_pos (by omega),
          Nat.mod_eq_of_lt (by omega)]
        rfl
      · rw [if_neg h0, ih (n / 10) _ (by omega)]
        have hunf2 : natToChars n =
            natToChars (n / 10) ++ [Nat.digitChar (n % 10)] := by
          rw [natToChars, if_neg (by omega)]
        rw [hunf2, List.append_assoc]
        rfl

theorem nat_repr_inj {n m : Nat} (h : Nat.repr n = Nat.repr m) : n = m := by
  have hd : ∀ k : Nat, Nat.toDigits 10 k = natToChars k := by
    intro k
    unfold Nat.toDigits
    rw [toDigitsCore_eq (k + 1) k [] (by omega), List.append_nil]
  have h2 : (Nat.toDigits 10 n).asString = (Nat.toDigits 10 m).asString := h
  have h3 := congrArg String.data h2
  have h4 : Nat.toDigits 10 n = Nat.toDigits 10 m := h3
  rw [hd, hd] at h4
  exact natToChars_inj n m h4

/-! ## `getUniqueFilePath` picks a fresh path -/

theorem uniqueCandidate_inj (f : String) {k j : Nat} (hk : k ≠ 0) (hj : j ≠ 0)
    (h : uniqueCandidate f k = uniqueCandidate f j) : k = j := by
  unfold uniqueCandidate at h
  rw [if_neg hk, if_neg hj] at h
  have h3 := congrArg String.data h
  simp only [String.data_append] at h3
  rw [List.append_assoc, List.append_assoc] at h3
  have h4 := List.append_cancel_left (List.append_cancel_left h3)
  exact nat_repr_inj (string_data_inj h4)

theorem probePath_inj (folder : String) {c1 c2 : String}
    (h : folder ++ "/" ++ c1 ++ ".md" = folder ++ "/" ++ c2 ++ ".md") :
    c1 = c2 := by
  have h3 := congrArg String.data h
  simp only [String.data_append] at h3
  have h4 := List.append_cancel_right h3
  have h5 := List.append_cancel_left h4
  exact string_data_inj h5

theorem pathExists_mem {vault : Vault} {p : String}
    (h : pathExists vault p = true) :
    p ∈ vault.folders ++ vault.files.map VaultFile.path := by
  unfold pathExists at h
  rw [Bool.or_eq_true] at h
  rcases h with h | h
  · exact List.mem_append.mpr (Or.inl (List.elem_iff.mp h))
  · obtain ⟨f, hf, hfp⟩ := List.any_eq_true.mp h
    exact List.mem_append.mpr (Or.inr (List.mem_map.mpr ⟨f, hf, by
      simpa using hfp⟩))

theorem exists_fresh_counter (vault : Vault) (folder fileName : String) :
    ∃ k, k < vault.files.length + vault.folders.length + 2 ∧
      pathExists vault
        (folder ++ "/" ++ uniqueCandidate fileName k ++ ".md") = false := by
  by_contra hcon
  push_neg at hcon
  have hall : ∀ k, k < vault.files.length + vault.folders.length + 2 →
      pathExists vault
        (folder ++ "/" ++ uniqueCandidate fileName k ++ ".md") = true :=
    fun k hk => Bool.ne_false_iff.mp (hcon k hk)
  have hnd : ((List.range (vault.files.length + vault.folders.length + 1)).map
      fun k => folder ++ "/" ++ uniqueCandidate fileName (k + 1) ++ ".md").Nodup := by
    refine List.Nodup.map_on ?_ (List.nodup_range _)
    intro x hx y hy hxy
    have h1 := probePath_inj folder hxy
    have h2 := uniqueCandidate_inj fileName (by omega) (by omega) h1
    omega
  have hsubset : ((List.range (vault.files.length + vault.folders.length + 1)).map
      fun k => folder ++ "/" ++ uniqueCandidate fileName (k + 1) ++ ".md") ⊆
      vault.folders ++ vault.files.map VaultFile.path := by
    intro q hq
    obtain ⟨k, hk, he⟩ := List.mem_map.mp hq
    rw [List.mem_range] at hk
    rw [← he]
    exact pathExists_mem (hall (k + 1) (by omega))
  have hlen := (List.subperm_of_subset hnd hsubset).length_le
  simp [List.length_append, List.length_map, List.length_range] at hlen
  omega

theorem getUniqueAux_fresh (vault : Vault) (folder fileName : String) :
    ∀ (fuel c : Nat),
      (∃ k, c ≤ k ∧ k < c + fuel ∧
        pathExists vault
          (folder ++ "/" ++ uniqueCandidate fileName k ++ ".md") = false) →
      pathExists vault (folder ++ "/" ++
        getUniqueFilePathAux vault folder fileName fuel c ++ ".md") = false := by
  intro fuel
  induction fuel with
  | zero =>
      intro c h
      obtain ⟨k, h1, h2, _⟩ := h
      omega
  | succ fuel ih =>
      intro c hex
      rw [show getUniqueFilePathAux vault folder fileName (fuel + 1) c =
        (if pathExists vault
            (folder ++ "/" ++ uniqueCandidate fileName c ++ ".md") then
          getUniqueFilePathAux vault folder fileName fuel (c + 1)
        else uniqueCandidate fileName c) from rfl]
      by_cases hc : pathExists vault
          (folder ++ "/" ++ uniqueCandidate fileName c ++ ".md") = true
      · rw [if_pos hc]
        apply ih
        obtain ⟨k, h1, h2, h3⟩ := hex
        have hkc : k ≠ c := by
          intro he
          rw [he, hc] at h3
          cases h3
        exact ⟨k, by omega, by omega, h3⟩
      · rw [if_neg hc]
        exact Bool.eq_false_iff.mpr fun h2 => hc h2

theorem getUniqueFilePath_fresh (vault : Vault) (folder fileName : String) :
    pathExists vault (folder ++ "/" ++
      getUniqueFilePath vault folder fileName ++ ".md") = false := by
  unfold getUniqueFilePath
  apply getUniqueAux_fresh
  obtain ⟨k, hk, hfresh⟩ := exists_fresh_counter vault folder fileName
  exact ⟨k, by omega, by omega, hfresh⟩

/-! ## The rebuild stores the last write at each id -/

theorem mapGet_map_replace {α : Type} (k : String) (v : α) :
    ∀ m : List (String × α), (m.any fun p => p.1 == k) = true →
      mapGet (m.map fun p => if p.1 == k then (k, v) else p) k = some v := by
  intro m
  induction m with
  | nil => intro h; cases h
  | cons p m ih =>
      intro h
      obtain ⟨a, b⟩ := p
      by_cases hp : (a == k) = true
      · have ha : a = k := by simpa using hp
        rw [List.map_cons, if_pos hp, mapGet_cons, if_pos (by simp)]
      · rw [List.map_cons, if_neg hp, mapGet_cons, if_neg hp]
        apply ih
        rw [List.any_cons] at h
        rcases Bool.or_eq_true_iff.mp h with h1 | h1
        · exact absurd h1 hp
        · exact h1

theorem mapGet_append_last {α : Type} (k : String) (v : α) :
    ∀ m : List (String × α), (m.any fun p => p.1 == k) = false →
      mapGet (m ++ [(k, v)]) k = some v := by
  intro m
  induction m with
  | nil =>
      intro _
      rw [List.nil_append, mapGet_cons, if_pos (by simp)]
  | cons p m ih =>
      intro h
      obtain ⟨a, b⟩ := p
      rw [List.any_cons, Bool.or_eq_false_iff] at h
      rw [List.cons_append, mapGet_cons, if_neg (by rw [h.1]; simp)]
      exact ih h.2

theorem mapGet_mapSet_self {α : Type} (m : List (String × α)) (k : String)
    (v : α) : mapGet (mapSet m k v) k = some v := by
  unfold mapSet
  by_cases hany : (m.any fun p => p.1 == k) = true
  · rw [if_pos hany]
    exact mapGet_map_replace k v m hany
  · rw [if_neg hany]
    exact mapGet_append_last k v m (by
      cases h : m.any fun p => p.1 == k
      · rfl
      · exact absurd h hany)

theorem rebuildFrom_append_last (jsP : String → Option Int)
    (scan : List (VaultFile × Option String)) (f : VaultFile)
    (et : Option String) (e : Entity)
    (hparse : parseFile jsP f et = some e) :
    mapGet (rebuildFrom jsP (scan ++ [(f, et)])) e.id = some e := by
  unfold rebuildFrom
  rw [List.foldl_append, List.foldl_cons, List.foldl_nil]
  rw [show parseFile jsP (f, et).1 (f, et).2 = some e from hparse]
  exact mapGet_mapSet_self _ _ _

/-- C7: in the flat-folder configuration, with the tasks folder present and a
nonempty generated id, `createEntity` for a task returns an entity `e` whose
id is the generated id and whose title is the unique basename chosen for the
file, and looking `e.id` up after the rebuild it triggers returns that same
entity. -/
theorem C7_createEntity_roundtrip (jsP : String → Option Int)
    (settings : Settings) (cache : List (String × Entity)) (vault : Vault)
    (title : String) (p : CreateParams)
    (hflat : settings.useNestedFolders = false)
    (hfolder : settings.tasksFolder ∈ vault.folders)
    (hgen : p.genId ≠ "")
    (hg : settings.goalsFolder ≠ settings.tasksFolder)
    (hpf : settings.portfoliosFolder ≠ settings.tasksFolder)
    (hpr : settings.projectsFolder ≠ settings.tasksFolder) :
    ∃ e, (createEntity jsP settings cache vault "task" title none p).2 =
        some e ∧
      e.id = p.genId ∧
      e.title = getUniqueFilePath vault settings.tasksFolder
        (sanitizeFileName title) ∧
      getEntity (refreshCacheFlat jsP settings
        (createEntity jsP settings cache vault "task" title none p).1) e.id =
        some e := by
  have hfp : getFolderForType settings cache "task" none =
      settings.tasksFolder := by
    unfold getFolderForType
    rw [hflat]
    rfl
  have hpe : pathExists vault settings.tasksFolder = true := by
    unfold pathExists
    rw [show vault.folders.contains settings.tasksFolder = true from
      List.elem_iff.mpr hfolder]
    rfl
  have hens : ensureFolderExists vault settings.tasksFolder = vault := by
    unfold ensureFolderExists
    rw [if_pos hpe]
  have hred : createEntity jsP settings cache vault "task" title none p =
      (taskVault settings vault title p,
       getEntity (refreshCacheFlat jsP settings
         (taskVault settings vault title p)) p.genId) := by
    simp only [createEntity]
    rw [hfp, hens]
    rfl
  have hparse : parseFile jsP (taskFile settings vault title p)
      (some "task") = some (taskParsed jsP settings vault title p) := rfl
  have hid : (taskParsed jsP settings vault title p).id = p.genId := by
    show orElseStr (some p.genId) (taskFile settings vault title p).basename =
      p.genId
    show (if p.genId = "" then (taskFile settings vault title p).basename
      else p.genId) = p.genId
    rw [if_neg hgen]
  have hcont2 : (taskVault settings vault title p).folders.contains
      settings.tasksFolder = true := List.elem_iff.mpr hfolder
  have hscanT : scanFolder (taskVault settings vault title p)
      settings.tasksFolder =
      (vault.files.filter fun f => f.folder == settings.tasksFolder) ++
        [taskFile settings vault title p] := by
    unfold scanFolder
    rw [if_pos hcont2]
    show (vault.files ++ [taskFile settings vault title p]).filter
      (fun f => f.folder == settings.tasksFolder) = _
    rw [List.filter_append]
    congr 1
    have hself : ((taskFile settings vault title p).folder ==
        settings.tasksFolder) = true := by
      show (settings.tasksFolder == settings.tasksFolder) = true
      simp
    rw [List.filter_cons, if_pos hself]
    rfl
  have hscanO : ∀ g : String, g ≠ settings.tasksFolder →
      scanFolder (taskVault settings vault title p) g = scanFolder vault g := by
    intro g hne2
    unfold scanFolder
    rw [show (taskVault settings vault title p).folders = vault.folders
      from rfl]
    by_cases hcg : vault.folders.contains g = true
    · rw [if_pos hcg, if_pos hcg]
      show (vault.files ++ [taskFile settings vault title p]).filter
        (fun f => f.folder == g) = _
      rw [List.filter_append]
      have hne3 : ((taskFile settings vault title p).folder == g) = false := by
        rw [beq_eq_false_iff_ne]
        show ¬ settings.tasksFolder = g
        exact fun he => hne2 he.symm
      rw [List.filter_cons, if_neg (by rw [hne3]; exact Bool.false_ne_true),
        List.filter_nil, List.append_nil]
    · rw [if_neg hcg, if_neg hcg]
  have hget : mapGet (refreshCacheFlat jsP settings
      (taskVault settings vault title p)) p.genId =
      some (taskParsed jsP settings vault title p) := by
    unfold refreshCacheFlat
    rw [hscanO _ hg, hscanO _ hpf, hscanO _ hpr, hscanT, List.map_append]
    rw [show List.map (fun f => (f, (some "task" : Option String)))
      [taskFile settings vault title p] =
      [(taskFile settings vault title p, some "task")] from rfl]
    simp only [← List.append_assoc]
    have h1 := rebuildFrom_append_last jsP
      ((((scanFolder vault settings.goalsFolder).map fun f =>
          (f, some "goal")) ++
        ((scanFolder vault settings.portfoliosFolder).map fun f =>
          (f, some "portfolio")) ++
        ((scanFolder vault settings.projectsFolder).map fun f =>
          (f, some "project"))) ++
       ((vault.files.filter fun f => f.folder == settings.tasksFolder).map
         fun f => (f, some "task")))
      (taskFile settings vault title p)
      (some "task") (taskParsed jsP settings vault title p) hparse
    rw [hid] at h1
    exact h1
  refine ⟨taskParsed jsP settings vault title p, ?_, hid, ?_, ?_⟩
  · rw [hred]
    exact hget
  · rfl
  · rw [hred]
    show getEntity (refreshCacheFlat jsP settings
      (taskVault settings vault title p))
      (taskParsed jsP settings vault title p).id =
      some (taskParsed jsP settings vault title p)
    rw [hid]
    exact hget

/-- C7 witness: creating a task titled "My Task" in a vault holding the four
standard folders and no files round-trips through the rebuild. -/
theorem C7_createEntity_witness :
    c7Settings.useNestedFolders = false ∧
    c7Settings.tasksFolder ∈ c7Vault.folders ∧
    c7Params.genId ≠ "" ∧
    (∃ e, (createEntity (fun _ => none) c7Settings [] c7Vault "task" "My Task"
        none c7Params).2 = some e ∧
      e.id = c7Params.genId ∧
      e.title = getUniqueFilePath c7Vault c7Settings.tasksFolder
        (sanitizeFileName "My Task") ∧
      getEntity (refreshCacheFlat (fun _ => none) c7Settings
        (createEntity (fun _ => none) c7Settings [] c7Vault "task" "My Task"
          none c7Params).1) e.id = some e) :=
  ⟨rfl, by decide, by decide,
    C7_createEntity_roundtrip (fun _ => none) c7Settings [] c7Vault "My Task"
      c7Params rfl (by decide) (by decide) (by decide) (by decide) (by decide)⟩

end TLV
